import Mathlib

set_option maxRecDepth 8000

/-!
Verification development for the DSA question generator.

The repository's core is the pair of regex parsers in the generate route
(splitting an LLM completion into question blocks, extracting labeled
fields, cleaning hints, padding/truncating to a fixed batch size) and the
sheets export route (guards, row assembly, header handling).  This file
embeds those functions over `List Char` / `String` and proves the spec's
testable properties about them.

Conventions of the embedding:
- JavaScript strings are modelled as `List Char` (ASCII inputs; JS string
  indices and `.length` coincide with character counts there).
- Each JS regex used by the code has a fixed, simple shape (literal label,
  greedy whitespace, lazy capture, alternation lookahead); its backtracking
  behaviour is implemented directly with fuelled scanners.
- `Date.now()` is a `Nat` parameter `now`.
-/

/-- Case-insensitive character comparison (ASCII lowering), the `i` regex flag. -/
def ciEq (a b : Char) : Bool := a.toLower == b.toLower

/-- JavaScript `\s` restricted to ASCII: space, tab, newline, carriage return,
vertical tab, form feed.  This is also the character class of `String.trim` in JS
on ASCII input. -/
def isWsChar (c : Char) : Bool :=
  c == ' ' || c == '\t' || c == '\n' || c == '\r' || c == '\x0b' || c == '\x0c'

/-- JavaScript `\w`: ASCII letters, digits, underscore. -/
def isWordChar (c : Char) : Bool := c.isAlpha || c.isDigit || c == '_'

/-- Case-insensitive prefix test on character lists. -/
def isPrefixCI : List Char → List Char → Bool
  | [], _ => true
  | _ :: _, [] => false
  | a :: as, b :: bs => ciEq a b && isPrefixCI as bs

/-- Leftmost case-insensitive occurrence of `pat` in `s` at an index of at least
`start`; fuelled scan. -/
def findFromA (pat s : List Char) : Nat → Nat → Option Nat
  | _, 0 => none
  | start, fuel + 1 =>
    if start ≤ s.length then
      if isPrefixCI pat (s.drop start) then some start
      else findFromA pat s (start + 1) fuel
    else none

/-- Leftmost case-insensitive occurrence of `pat` in `s` at an index of at least
`start`. -/
def findFrom (pat s : List Char) (start : Nat) : Option Nat :=
  findFromA pat s start (s.length + 1)

/-- Does `pat` occur (case-insensitively) anywhere in `s`?  A labeled field is
"entirely absent" from a block exactly when this is false for its label. -/
def occursCI (pat : String) (s : List Char) : Bool := (findFrom pat.data s 0).isSome

/-- The segment `s[a..b)`. -/
def seg (s : List Char) (a b : Nat) : List Char := (s.drop a).take (b - a)

/-- Length of the maximal whitespace run starting at index `i` (greedy `\s*`). -/
def wsRunLen (s : List Char) (i : Nat) : Nat := ((s.drop i).takeWhile isWsChar).length

/-- Length of the maximal word-character run starting at index `i` (greedy `\w+`). -/
def wordRunLen (s : List Char) (i : Nat) : Nat := ((s.drop i).takeWhile isWordChar).length

/-- JS `toUpperCase` on ASCII input. -/
def upperStr (s : String) : String := (s.data.map Char.toUpper).asString

/-- JS `String.prototype.trim` on ASCII input. -/
def trimL (l : List Char) : List Char := ((l.dropWhile isWsChar).reverse.dropWhile isWsChar).reverse

/-!
Field extraction engine.

Every field regex of the two parsers has the form
`LABEL:\s*([\s\S]+?)(?=T1|T2|...|$)` (flag `i`), the title variant uses `(.+?)`
(no newline in the capture) with lookahead `(?=\n)`.  `termAt` is the zero-width
lookahead test; `emptyAlt` models an empty alternative in the lookahead (which
arises when the code joins an empty list of other-language keys with `|`, making
the lookahead match everywhere).
-/

/-- Lookahead test at position `q`: an empty alternative always matches; `$`
(`allowEnd`) matches at the end; otherwise some terminator literal must start at
`q` (case-insensitively). -/
def termAt (terms : List (List Char)) (allowEnd emptyAlt : Bool) (s : List Char) (q : Nat) : Bool :=
  emptyAlt || (allowEnd && q == s.length) || terms.any (fun t => isPrefixCI t (s.drop q))

/-- Lazy extension of the capture: smallest `q` at or after the current position
where the lookahead holds; consuming a newline is forbidden when `noNl` (the `.`
of `(.+?)`). -/
def scanQA (terms : List (List Char)) (allowEnd emptyAlt noNl : Bool) (s : List Char) :
    Nat → Nat → Option Nat
  | _, 0 => none
  | q, fuel + 1 =>
    if termAt terms allowEnd emptyAlt s q then some q
    else if s.length ≤ q then none
    else if noNl && s.get? q == some '\n' then none
    else scanQA terms allowEnd emptyAlt noNl s (q + 1) fuel

/-- Backtracking of the greedy `\s*`: candidate capture starts `j` descend from
the end of the whitespace run down to `i` (the position right after the label);
the capture needs at least one character, so the first scanned position is
`j + 1`. -/
def tryCaptureA (terms : List (List Char)) (allowEnd emptyAlt noNl : Bool) (s : List Char)
    (i : Nat) : Nat → Nat → Option (List Char)
  | _, 0 => none
  | j, fuel + 1 =>
    let cap : Option Nat :=
      if j < s.length && !(noNl && s.get? j == some '\n') then
        scanQA terms allowEnd emptyAlt noNl s (j + 1) (s.length + 1)
      else none
    match cap with
    | some q => some (seg s j q)
    | none => if j ≤ i then none else tryCaptureA terms allowEnd emptyAlt noNl s i (j - 1) fuel

/-- Attempt the whole pattern at a given occurrence `pos` of the label. -/
def tryCapture (terms : List (List Char)) (allowEnd emptyAlt noNl : Bool) (s : List Char)
    (pos labelLen : Nat) : Option (List Char) :=
  let i := pos + labelLen
  let j := i + wsRunLen s i
  tryCaptureA terms allowEnd emptyAlt noNl s i j (j - i + 1)

/-- Leftmost-match loop of `String.prototype.match`: try each occurrence of the
label from left to right until the rest of the pattern also matches. -/
def extractFieldA (label : List Char) (terms : List (List Char))
    (allowEnd emptyAlt noNl : Bool) (s : List Char) : Nat → Nat → Option (List Char)
  | _, 0 => none
  | p, fuel + 1 =>
    match findFrom label s p with
    | none => none
    | some pos =>
      match tryCapture terms allowEnd emptyAlt noNl s pos label.length with
      | some cap => some cap
      | none => extractFieldA label terms allowEnd emptyAlt noNl s (pos + 1) fuel

/-- Extraction for the standard field shape `Label:\s*([\s\S]+?)(?=T1|...|$?)`. -/
def extractField (label : String) (terms : List String) (allowEnd : Bool)
    (s : List Char) : Option (List Char) :=
  extractFieldA label.data (terms.map String.data) allowEnd false false s 0 (s.length + 1)

/-- Extraction for `Title:\s*(.+?)(?=\n)`. -/
def extractTitle (s : List Char) : Option (List Char) :=
  extractFieldA ("Title:").data [['\n']] false false true s 0 (s.length + 1)

/-!
The hint-cleaning chain of `cleanHint` (identical in both parsers): eleven
successive global `replace` passes, then `trim`, then the first-sentence window.
-/

/-- Global removal of lazy `op .. cl` (both delimiters included), the shape of the
code-fence, block-comment, brace and parenthesis passes.  A leftmost opener with
no closer after it means no match exists at or after it, and the scan stops. -/
def removeDelimA (op cl : List Char) : List Char → Nat → List Char
  | s, 0 => s
  | s, fuel + 1 =>
    match findFrom op s 0 with
    | none => s
    | some pos =>
      match findFrom cl s (pos + op.length) with
      | none => s
      | some cpos => s.take pos ++ removeDelimA op cl (s.drop (cpos + cl.length)) fuel

/-- Global removal of lazy `op …​ cl`, both included. -/
def removeDelim (op cl : String) (s : List Char) : List Char :=
  removeDelimA op.data cl.data s (s.length + 1)

/-- Global removal of `KEY[\s\S]*?(?=\n\n|$)`: from the key to the next blank
line (kept) or to the end of the string. -/
def removeKeyToBlankA (key : List Char) : List Char → Nat → List Char
  | s, 0 => s
  | s, fuel + 1 =>
    match findFrom key s 0 with
    | none => s
    | some pos =>
      let e := (findFrom ['\n', '\n'] s (pos + key.length)).getD s.length
      s.take pos ++ removeKeyToBlankA key (s.drop e) fuel

/-- Global removal of `KEY[\s\S]*?(?=\n\n|$)`. -/
def removeKeyToBlank (key : String) (s : List Char) : List Char :=
  removeKeyToBlankA key.data s (s.length + 1)

/-- Global removal of `//.*$` (flag `m`): a line-comment marker up to, not
including, the end of its line. -/
def removeLineCommentsA : List Char → Nat → List Char
  | s, 0 => s
  | s, fuel + 1 =>
    match findFrom ['/', '/'] s 0 with
    | none => s
    | some pos =>
      let e := (findFrom ['\n'] s (pos + 2)).getD s.length
      s.take pos ++ removeLineCommentsA (s.drop e) fuel

/-- Finder for `kw\s+\w+[\s\S]*?(?=\n\n|$)` (flag `gi`): the keyword must be
followed by at least one whitespace and then a word character; the greedy runs
commit, and the lazy tail extends to the next blank line or the end. Returns the
match extent `(pos, e)`. -/
def kwFindA (kw : List Char) (s : List Char) : Nat → Nat → Option (Nat × Nat)
  | _, 0 => none
  | p, fuel + 1 =>
    match findFrom kw s p with
    | none => none
    | some pos =>
      let i := pos + kw.length
      let w := wsRunLen s i
      let j := i + w
      if w > 0 && j < s.length && (s.get? j).any isWordChar then
        some (pos, (findFrom ['\n', '\n'] s (j + wordRunLen s j)).getD s.length)
      else kwFindA kw s (pos + 1) fuel

/-- Global removal of `kw\s+\w+[\s\S]*?(?=\n\n|$)`. -/
def removeKwA (kw : List Char) : List Char → Nat → List Char
  | s, 0 => s
  | s, fuel + 1 =>
    match kwFindA kw s 0 (s.length + 1) with
    | none => s
    | some (pos, e) => s.take pos ++ removeKwA kw (s.drop e) fuel

/-- Lazy `.*?` of the `public\s+.*?(?=\n\n|$)` pattern: starting at a candidate
position, succeed at the first blank-line lookahead or at the end of the string;
a bare newline cannot be consumed by `.` and kills this candidate. -/
def accessScanA (s : List Char) : Nat → Nat → Option Nat
  | _, 0 => none
  | q, fuel + 1 =>
    if isPrefixCI ['\n', '\n'] (s.drop q) then some q
    else if q == s.length then some q
    else if s.get? q == some '\n' then none
    else accessScanA s (q + 1) fuel

/-- Backtracking of the greedy `\s+` of the access-modifier pattern: candidate
capture starts descend from the end of the whitespace run down to `i + 1`. -/
def accessTryA (s : List Char) (i : Nat) : Nat → Nat → Option Nat
  | _, 0 => none
  | j, fuel + 1 =>
    if j ≤ i then none
    else
      match accessScanA s j (s.length + 2) with
      | some q => some q
      | none => accessTryA s i (j - 1) fuel

/-- Finder for `kw\s+.*?(?=\n\n|$)` (the `public` / `private` passes). -/
def accessFindA (kw : List Char) (s : List Char) : Nat → Nat → Option (Nat × Nat)
  | _, 0 => none
  | p, fuel + 1 =>
    match findFrom kw s p with
    | none => none
    | some pos =>
      let i := pos + kw.length
      let w := wsRunLen s i
      match (if w > 0 then accessTryA s i (i + w) (w + 1) else none) with
      | some q => some (pos, q)
      | none => accessFindA kw s (pos + 1) fuel

/-- Global removal of `kw\s+.*?(?=\n\n|$)`. -/
def removeAccessA (kw : List Char) : List Char → Nat → List Char
  | s, 0 => s
  | s, fuel + 1 =>
    match accessFindA kw s 0 (s.length + 1) with
    | none => s
    | some (pos, e) => s.take pos ++ removeAccessA kw (s.drop e) fuel

/-- The eight `<LANG>_TEMPLATE:` removal passes, in source order. -/
def templateKeys : List String :=
  [("JAVA_TEMPLATE:"), ("PYTHON_TEMPLATE:"), ("JAVASCRIPT_TEMPLATE:"), ("CPP_TEMPLATE:"),
   ("CSHARP_TEMPLATE:"), ("GO_TEMPLATE:"), ("RUST_TEMPLATE:"), ("TYPESCRIPT_TEMPLATE:")]

/-- The removal/trim stage of `cleanHint`: the chained `replace` passes of the
source in order (code fences, the eight template keys, `*…*/`, line comments,
brace blocks, parenthesis groups, `class`/`function`/`def` declarations,
`public`/`private` lines), followed by `trim`. -/
def hintClean1 (s : List Char) : List Char :=
  let s1 := removeDelim ("```") ("```") s
  let s2 := templateKeys.foldl (fun acc k => removeKeyToBlank k acc) s1
  let s3 := removeDelim ("*") ("*/") s2
  let s4 := removeLineCommentsA s3 (s3.length + 1)
  let s5 := removeDelim ("\x7b") ("\x7d") s4
  let s6 := removeDelim ("(") (")") s5
  let s7 := removeKwA ("class").data s6 (s6.length + 1)
  let s8 := removeKwA ("function").data s7 (s7.length + 1)
  let s9 := removeKwA ("def").data s8 (s8.length + 1)
  let s10 := removeAccessA ("public").data s9 (s9.length + 1)
  let s11 := removeAccessA ("private").data s10 (s10.length + 1)
  trimL s11

/-- The removal/trim stage, on `String`. -/
def hintClean1Str (s : String) : String := (hintClean1 s.data).asString

/-- A sentence terminator of the `split(/[.!?]\s+/)` separator. -/
def isSentEnd (c : Char) : Bool := c == '.' || c == '!' || c == '?'

/-- Index of the first separator `[.!?]\s+`, or the length when there is none. -/
def firstSegA (s : List Char) : Nat → Nat → Nat
  | _, 0 => s.length
  | m, fuel + 1 =>
    if s.length ≤ m then s.length
    else if (s.get? m).any isSentEnd && (s.get? (m + 1)).any isWsChar then m
    else firstSegA s (m + 1) fuel

/-- First segment of `split(/[.!?]\s+/)`: the prefix before the first sentence
terminator that is followed by whitespace. -/
def firstSeg (s : List Char) : List Char := s.take (firstSegA s 0 (s.length + 1))

/-- The `cleanHint` branch condition as one definition: the first segment is
nonempty, strictly between 10 and 200 characters, and contains no opening brace
or parenthesis. -/
def hintWindow (fs : List Char) : Bool :=
  !fs.isEmpty && decide (10 < fs.length) && decide (fs.length < 200)
    && !fs.contains '\x7b' && !fs.contains '('

/-- The `cleanHint` helper of both parsers: empty input stays empty; otherwise
run the removal/trim stage, keep the first sentence-like segment when it falls
in the window, and otherwise truncate the cleaned text to 200 characters and
trim. -/
def cleanHintL (s : List Char) : List Char :=
  if s.isEmpty then []
  else
    let c := hintClean1 s
    let fs := firstSeg c
    if hintWindow fs then fs
    else trimL (c.take 200)

/-- The `cleanHint` helper, on `String`. -/
def cleanHint (h : String) : String := (cleanHintL h.data).asString

/-!
Data model: the `Question` record and the generation request (`FormData`).
Optional TS fields are `Option` so that a missing field (undefined) is
distinguishable from the empty string.
-/

/-- Question mode: `complete_code` (function templates) or `write_code`
(problem statements only). -/
inductive QType where
  | complete_code
  | write_code
deriving DecidableEq, Repr

/-- Difficulty level. -/
inductive Difficulty where
  | easy
  | medium
  | hard
deriving DecidableEq, Repr

/-- One parsed interview question. -/
structure Question where
  id : String
  title : String
  problemStatement : String
  inputFormat : String
  outputFormat : String
  constraints : String
  sampleInput : String
  sampleOutput : String
  language : Option String := none
  implementation : Option String := none
  hint : Option String := none
deriving DecidableEq, Repr

/-- The generation request body. -/
structure FormData where
  positionName : String
  languages : List String
  problem : String
  hint : String
  type : QType
  difficultyLevel : Difficulty
  topic : String
deriving DecidableEq, Repr

/-- TS `match?.[1]?.trim() || fallback`: a missing match, or a capture that is
empty after trimming, yields the fallback. -/
def fieldOr (m : Option (List Char)) (fb : String) : String :=
  match m with
  | none => fb
  | some cs =>
    let t := trimL cs
    if t.isEmpty then fb else t.asString

/-- TS `match?.[1]?.trim() || ''` as fed into `cleanHint`. -/
def optTrim (m : Option (List Char)) : List Char :=
  match m with
  | none => []
  | some cs => trimL cs

/-!
Splitting on the `QUESTION <n>:` delimiter: `text.split(/QUESTION \d+:/i)` and
`.slice(1)`.  A delimiter is the literal `QUESTION ` (case-insensitive)
followed by a maximal digit run of length at least one followed by `:`.
-/

/-- Match a `QUESTION \d+:` delimiter starting exactly at index `p`; returns its
length. -/
def qDelimAt (s : List Char) (p : Nat) : Option Nat :=
  if isPrefixCI ("QUESTION ").data (s.drop p) then
    let d := ((s.drop (p + 9)).takeWhile Char.isDigit).length
    if d > 0 && s.get? (p + 9 + d) == some ':' then some (9 + d + 1) else none
  else none

/-- Leftmost delimiter at an index of at least `start`. -/
def findQDelimA (s : List Char) : Nat → Nat → Option (Nat × Nat)
  | _, 0 => none
  | p, fuel + 1 =>
    if p ≤ s.length then
      match qDelimAt s p with
      | some len => some (p, len)
      | none => findQDelimA s (p + 1) fuel
    else none

/-- All split segments of `s` over the delimiter regex (including the leading
segment before the first delimiter). -/
def splitQGo (s : List Char) : Nat → List (List Char)
  | 0 => [s]
  | fuel + 1 =>
    match findQDelimA s 0 (s.length + 1) with
    | none => [s]
    | some (p, len) => s.take p :: splitQGo (s.drop (p + len)) fuel

/-- TS `text.split(/QUESTION \d+:/i).slice(1)`: the question blocks. -/
def splitQuestions (s : List Char) : List (List Char) :=
  (splitQGo s (s.length + 1)).drop 1

/-!
The base parser `parseBaseQuestions` (problem-only mode).
-/

/-- One parsed block of `parseBaseQuestions`: each labeled field is extracted
with its lookahead terminators from the source, with the per-field fallback
strings; the hint is trimmed and run through `cleanHint`. -/
def mkBaseQuestion (now i : Nat) (block : List Char) : Question :=
  { id := "question-" ++ Nat.repr now ++ "-" ++ Nat.repr i
    title := fieldOr (extractTitle block) ("Question " ++ Nat.repr (i + 1))
    problemStatement :=
      fieldOr (extractField ("Problem Statement:") [("Input Format:")] false block)
        ("Problem statement not found")
    inputFormat :=
      fieldOr (extractField ("Input Format:") [("Output Format:")] false block)
        ("Input format not specified")
    outputFormat :=
      fieldOr (extractField ("Output Format:") [("Constraints:")] false block)
        ("Output format not specified")
    constraints :=
      fieldOr (extractField ("Constraints:") [("Sample Input:")] false block)
        ("Constraints not specified")
    sampleInput :=
      fieldOr (extractField ("Sample Input:") [("Sample Output:")] false block)
        ("Sample input not provided")
    sampleOutput :=
      fieldOr (extractField ("Sample Output:") [("Hint:")] false block)
        ("Sample output not provided")
    hint :=
      some (cleanHintL (optTrim
        (extractField ("Hint:") [("QUESTION"), ("\n\n")] true block))).asString }

/-- A padding record of the base parser's final while-loop, pushed when the list
has length `k`. -/
def basePad (k : Nat) : Question :=
  { id := "question-fallback-" ++ Nat.repr k
    title := "Question " ++ Nat.repr (k + 1)
    problemStatement := "Question generation incomplete. Please try again."
    inputFormat := ""
    outputFormat := ""
    constraints := ""
    sampleInput := ""
    sampleOutput := "" }

/-- The padding while-loop: push `mk (current length)` until `n` records have
been added. -/
def padLoop (mk : Nat → Question) (qs : List Question) : Nat → List Question
  | 0 => qs
  | n + 1 => padLoop mk (qs ++ [mk qs.length]) n

/-- Index-carrying enumeration of a list. -/
def enumFrom {α : Type} : Nat → List α → List (Nat × α)
  | _, [] => []
  | i, a :: l => (i, a) :: enumFrom (i + 1) l

/-- The first five question blocks, each trimmed on entry to the loop body. -/
def takenBlocks (text : String) : List (List Char) :=
  ((splitQuestions text.data).take 5).map trimL

/-- Number of blocks the parse loops actually consume. -/
def parsedBlockCount (text : String) : Nat := (takenBlocks text).length

/-- The base parser's records before padding. -/
def basePre (now : Nat) (text : String) : List Question :=
  (enumFrom 0 (takenBlocks text)).map (fun ib => mkBaseQuestion now ib.1 ib.2)

/-- TS `parseBaseQuestions`: split into blocks, parse the first five (each block
trimmed first), pad to five records, return exactly five. -/
def parseBaseQuestions (now : Nat) (text : String) : List Question :=
  (padLoop basePad (basePre now text) (5 - (basePre now text).length)).take 5

/-- The `write_code` branch of the generate endpoint: parse base questions, then
one record per (question, language) pair, the language appended to the
identifier. -/
def writeCodeQuestions (now : Nat) (fd : FormData) (text : String) : List Question :=
  (parseBaseQuestions now text).flatMap (fun q =>
    fd.languages.map (fun lang =>
      { q with id := q.id ++ "-" ++ lang, language := some lang }))

/-!
The implementation parser `parseQuestionsWithImplementations`.

Per-language extraction tries three patterns in turn:
1. the exact `<LANG>_TEMPLATE:` / `<LANG>_IMPLEMENTATION:` key with a lookahead
   over all other languages' keys, `QUESTION`, and `$` — when there are no other
   languages the joined alternation contains an empty alternative, so the
   lookahead matches everywhere and the lazy capture is a single character;
2. the uppercased language name, lazily up to a newline, then a capture bounded
   by a blank line, another language name, `QUESTION`, or `$` (same empty
   alternative effect for a single language);
3. a fenced code block after `Hint:`, with the fences stripped.
If all fail and the mode is `complete_code`, a hard-coded per-language fallback
skeleton is substituted.
-/

/-- The per-language section key: `<LANG>_IMPLEMENTATION:` for `write_code`,
`<LANG>_TEMPLATE:` otherwise. -/
def langKeyOf (t : QType) (lang : String) : String :=
  (upperStr lang) ++
    (match t with
     | QType.write_code => "_IMPLEMENTATION:"
     | QType.complete_code => "_TEMPLATE:")

/-- Pattern 1: exact section-key match. -/
def pattern1 (fd : FormData) (block : List Char) (lang : String) : Option (List Char) :=
  let key := langKeyOf fd.type lang
  let others := (fd.languages.map (langKeyOf fd.type)).filter (fun k => k != key)
  let terms := (others ++ [("QUESTION" : String)]).map String.data
  extractFieldA key.data terms true others.isEmpty false block 0 (block.length + 1)

/-- Lazy capture of pattern 2 for a fixed newline position: at least one
character after the newline, up to the first lookahead position. -/
def p2ScanCap (terms : List (List Char)) (emptyAlt : Bool) (s : List Char) (nl : Nat) :
    Option (List Char) :=
  if nl + 1 < s.length then
    match scanQA terms true emptyAlt false s (nl + 2) (s.length + 1) with
    | some q => some (seg s (nl + 1) q)
    | none => none
  else none

/-- Lazy `[\s\S]*?\n` of pattern 2: successive newline candidates, nearest
first. -/
def p2NlLoop (terms : List (List Char)) (emptyAlt : Bool) (s : List Char) :
    Nat → Nat → Option (List Char)
  | _, 0 => none
  | st, fuel + 1 =>
    match findFrom ['\n'] s st with
    | none => none
    | some nl =>
      match p2ScanCap terms emptyAlt s nl with
      | some c => some c
      | none => p2NlLoop terms emptyAlt s (nl + 1) fuel

/-- Pattern 2, scanning occurrences of the uppercased language name from the
left. -/
def pattern2A (langU : List Char) (terms : List (List Char)) (emptyAlt : Bool)
    (s : List Char) : Nat → Nat → Option (List Char)
  | _, 0 => none
  | p, fuel + 1 =>
    match findFrom langU s p with
    | none => none
    | some pos =>
      match p2NlLoop terms emptyAlt s (pos + langU.length) (s.length + 1) with
      | some c => some c
      | none => pattern2A langU terms emptyAlt s (pos + 1) fuel

/-- Pattern 2: `<LANG>[\s\S]*?\n([\s\S]+?)(?=\n\n|OTHER|QUESTION|$)`.

Unlike pattern 1, the source interpolates the uppercased language names into
this `new RegExp` without escaping.  This definition is the literal-match
semantics of the constructed regex, which is exact precisely when every
interpolated name consists of regex-literal characters (letters, digits,
underscores — true of alphanumeric language names).  For other names the
constructed pattern can be invalid (`new RegExp("C++…")` raises SyntaxError:
nothing to repeat) or give metacharacter semantics; the parser below therefore
takes the whole per-language extraction as an outcome function, and this
definition is used only to build `implOutcomeReal`, its alphanumeric-case
instantiation. -/
def pattern2 (fd : FormData) (block : List Char) (lang : String) : Option (List Char) :=
  let langU := upperStr lang
  let othersU := (fd.languages.map upperStr).filter (fun l => l != langU)
  let terms := (([("\n\n" : String)] ++ othersU) ++ [("QUESTION" : String)]).map String.data
  pattern2A langU.data terms othersU.isEmpty block 0 (block.length + 1)

/-- Global removal of every literal triple backtick (the final
`.replace(/```/g, '')` of pattern 3). -/
def removeTripleA : List Char → Nat → List Char
  | s, 0 => s
  | s, fuel + 1 =>
    match findFrom ("```").data s 0 with
    | none => s
    | some pos => s.take pos ++ removeTripleA (s.drop (pos + 3)) fuel

/-- Pattern 3: `Hint:[\s\S]*?```[\s\S]*?``` `, then strip the leading
`Hint:…```​` and all fences and trim.  Lazy matching makes the leftmost `Hint:`
with the two nearest following fences the unique candidate: if the nearest
fences fail, every later candidate scans a subset of the text and fails too. -/
def pattern3 (block : List Char) : Option (List Char) :=
  match findFrom ("hint:").data block 0 with
  | none => none
  | some p =>
    match findFrom ("```").data block (p + 5) with
    | none => none
    | some f1 =>
      match findFrom ("```").data block (f1 + 3) with
      | none => none
      | some f2 => some (trimL (removeTripleA (seg block (f1 + 3) (f2 + 3)) (block.length + 1)))

/-- The three extraction patterns in order, each trimmed, defaulting to the
empty string. -/
def extractImpl (fd : FormData) (block : List Char) (lang : String) : List Char :=
  match pattern1 fd block lang with
  | some c => trimL c
  | none =>
    match pattern2 fd block lang with
    | some c => trimL c
    | none =>
      match pattern3 block with
      | some c => c
      | none => []

/-- The hard-coded fallback skeletons for the known languages, and the generic
one-line placeholder otherwise. -/
def fallbackTemplate (lang : String) : String :=
  if lang = "javascript" then
    "/**\n * @param \x7bnumber[]\x7d nums\n * @return \x7bnumber\x7d\n */\nconst removeDuplicates = (nums) => \x7b\n    // Your code here\n\x7d;"
  else if lang = "python" then
    "def remove_duplicates(nums: list[int]) -> int:\n    \"\"\"\n    Remove duplicates in-place and return new length\n    \"\"\"\n    # Your code here"
  else if lang = "java" then
    "class Solution \x7b\n    /**\n     * @param int[] nums\n     * @return int\n     */\n    public int removeDuplicates(int[] nums) \x7b\n        // Your code here\n    \x7d\n\x7d"
  else if lang = "cpp" then
    "int removeDuplicates(vector<int>& nums) \x7b\n    // Your code here\n\x7d"
  else if lang = "csharp" then
    "public class Solution \x7b\n    public int RemoveDuplicates(int[] nums) \x7b\n        // Your code here\n    \x7d\n\x7d"
  else if lang = "go" then
    "func removeDuplicates(nums []int) int \x7b\n    // Your code here\n    return 0\n\x7d"
  else if lang = "rust" then
    "fn remove_duplicates(nums: &mut Vec<i32>) -> i32 \x7b\n    // Your code here\n\x7d"
  else if lang = "typescript" then
    "/**\n * @param \x7bnumber[]\x7d nums\n * @return \x7bnumber\x7d\n */\nconst removeDuplicates = (nums: number[]): number => \x7b\n    // Your code here\n\x7d;"
  else "// Function template for " ++ lang ++ "\n// Your code here"

/-- The implementation cell of one record: the extracted text, or the fallback
skeleton when the mode is `complete_code` and extraction produced the empty
string. -/
def implValue (fd : FormData) (block : List Char) (lang : String) : String :=
  let impl := extractImpl fd block lang
  if fd.type = QType.complete_code ∧ impl = [] then fallbackTemplate lang
  else impl.asString

/-- The shared base record of one block of `parseQuestionsWithImplementations`;
identical to the base parser's record except for the sample-output and hint
lookaheads. -/
def mkImplBase (now i : Nat) (block : List Char) : Question :=
  { id := "question-" ++ Nat.repr now ++ "-" ++ Nat.repr i
    title := fieldOr (extractTitle block) ("Question " ++ Nat.repr (i + 1))
    problemStatement :=
      fieldOr (extractField ("Problem Statement:") [("Input Format:")] false block)
        ("Problem statement not found")
    inputFormat :=
      fieldOr (extractField ("Input Format:") [("Output Format:")] false block)
        ("Input format not specified")
    outputFormat :=
      fieldOr (extractField ("Output Format:") [("Constraints:")] false block)
        ("Output format not specified")
    constraints :=
      fieldOr (extractField ("Constraints:") [("Sample Input:")] false block)
        ("Constraints not specified")
    sampleInput :=
      fieldOr (extractField ("Sample Input:") [("Sample Output:")] false block)
        ("Sample input not provided")
    sampleOutput :=
      fieldOr
        (extractField ("Sample Output:")
          [("Hint:"), ("COMPLETE IMPLEMENTATIONS:"), ("FUNCTION TEMPLATES:")] false block)
        ("Sample output not provided")
    hint :=
      some (cleanHintL (optTrim
        (extractField ("Hint:")
          [("COMPLETE IMPLEMENTATIONS:"), ("FUNCTION TEMPLATES:")] true block))).asString }

/-- Outcome of one iteration of the per-language extraction loop: the string
that ends up in the record's implementation field, or an exception.  The only
throwing operation in the source's try body is pattern 2's `new RegExp` on the
unescaped uppercased language (reachable, e.g., for a language "c++" whose
section key is absent from the block); the regex engine's behaviour is
abstracted into a function into this type. -/
inductive LangOutcome where
  | ok (implementation : String)
  | raise
deriving DecidableEq, Repr

/-- The record the catch branch pushes for block `i` and one language after an
exception escaped the per-language loop. -/
def catchRecord (i : Nat) (lang : String) : Question :=
  { id := "question-fallback-" ++ Nat.repr i ++ "-" ++ lang
    title := "Generated Question " ++ Nat.repr (i + 1)
    problemStatement := "Error parsing question. Please regenerate."
    inputFormat := ""
    outputFormat := ""
    constraints := ""
    sampleInput := ""
    sampleOutput := ""
    language := some lang
    implementation := some ""
    hint := some "" }

/-- The per-language loop of one block under the try/catch: each language whose
extraction completes pushes its record; the first raised exception aborts the
loop, keeps the records already pushed, and the catch branch then appends one
`catchRecord` per requested language. -/
def langLoopGo (base : Question) (i : Nat) (outc : String → LangOutcome)
    (allLangs : List String) : List String → List Question
  | [] => []
  | lang :: rest =>
    match outc lang with
    | LangOutcome.ok impl =>
      { base with
        id := base.id ++ "-" ++ lang
        language := some lang
        implementation := some impl } :: langLoopGo base i outc allLangs rest
    | LangOutcome.raise => allLangs.map (catchRecord i)

/-- All records one block contributes, given the extraction outcomes for its
iteration of the loop. -/
def blockQuestions (now : Nat) (fd : FormData)
    (outcomes : Nat → List Char → String → LangOutcome) (i : Nat) (block : List Char) :
    List Question :=
  langLoopGo (mkImplBase now i block) i (outcomes i block) fd.languages fd.languages

/-- The extraction outcome function in the case that every requested language's
uppercased name is made of regex-literal characters: every constructed regex is
then valid and matches the interpolated names literally, so no iteration raises
and the three-pattern chain plus fallback computes the implementation string. -/
def implOutcomeReal (fd : FormData) : Nat → List Char → String → LangOutcome :=
  fun _ block lang => LangOutcome.ok (implValue fd block lang)

/-- A padding record of the implementation parser's final while-loop, pushed
when the list has length `len`. -/
def implPad (langs : List String) (len : Nat) : Question :=
  let qi := len / langs.length + 1
  let lang := langs.getD (len % langs.length) ""
  { id := "question-fallback-" ++ Nat.repr qi ++ "-" ++ lang
    title := "Question " ++ Nat.repr qi
    problemStatement := "Question generation incomplete. Please try again."
    inputFormat := ""
    outputFormat := ""
    constraints := ""
    sampleInput := ""
    sampleOutput := ""
    language := some lang
    implementation := some ""
    hint := some "" }

/-- The implementation parser's records before padding: the first five blocks,
each contributing its loop's records (one per language, or partial pushes plus
the catch records when an iteration raises). -/
def implPre (now : Nat) (fd : FormData)
    (outcomes : Nat → List Char → String → LangOutcome) (text : String) : List Question :=
  (enumFrom 0 (takenBlocks text)).flatMap (fun ib => blockQuestions now fd outcomes ib.1 ib.2)

/-- TS `parseQuestionsWithImplementations`: the per-block loop with its
try/catch (the extraction outcomes of the regex engine passed as a function),
then the padding while-loop and the final slice to `5 × languages.length`. -/
def parseQuestionsWithImplementations (now : Nat) (fd : FormData)
    (outcomes : Nat → List Char → String → LangOutcome) (text : String) :
    List Question :=
  (padLoop (implPad fd.languages) (implPre now fd outcomes text)
    (5 * fd.languages.length - (implPre now fd outcomes text).length)).take
    (5 * fd.languages.length)

/-!
The sheets export route.  The repository contains two versions of the handler:
the one at the named path writes eighteen separate columns; the unnamed source
file (the variant the design document's row-assembler section describes) writes
six columns with a consolidated problem cell.  Both share the same request
guard and credentials fallback.  External effects (the header update and the
append) are modelled as a list of issued calls; the outcomes of the two
backend calls are parameters (`headerUpdateOk`, `appendResult`).
-/

/-- The `type` field of the named sheets route's `InputParameters`. -/
inductive ParamType where
  | fromScratch
  | completeCode
deriving DecidableEq, Repr

/-- Request parameters of the named sheets route. -/
structure InputParameters where
  positionName : String
  languages : List String
  problem : String
  hint : String
  type : ParamType
  difficultyLevel : Difficulty
  topic : String
deriving DecidableEq, Repr

/-- Request parameters of the consolidated-row sheets route (its `type` uses the
generator's mode values). -/
structure InputParamsC where
  positionName : String
  languages : List String
  problem : String
  hint : String
  type : QType
  difficultyLevel : Difficulty
  topic : String
deriving DecidableEq, Repr

/-- One spreadsheet row. -/
abbrev Row := List String

/-- A call issued to the spreadsheet backend. -/
inductive SheetsCall where
  | updateHeader (range : String) (rows : List Row)
  | appendRows (range : String) (rows : List Row)
deriving DecidableEq, Repr

/-- The JSON response of the sheets route (the fields each branch actually
returns). -/
inductive SheetsResponse where
  | badRequest (error : String)
  | dryRun (message note : String) (questions : List String)
  | ok (message details : String) (updatedRows : Nat)
  | sheetsFailure (error details fallback : String) (questions : List String)
deriving DecidableEq, Repr

/-- HTTP status of each response branch. -/
def statusOf : SheetsResponse → Nat
  | SheetsResponse.badRequest _ => 400
  | SheetsResponse.dryRun _ _ _ => 200
  | SheetsResponse.ok _ _ _ => 200
  | SheetsResponse.sheetsFailure _ _ _ _ => 500

/-- Response plus the backend calls the handler issued. -/
structure SheetsOutcome where
  response : SheetsResponse
  calls : List SheetsCall
deriving DecidableEq, Repr

/-- The credential environment variables; `none` is an unset variable. -/
structure SheetsEnv where
  clientEmail : Option String
  privateKey : Option String
deriving DecidableEq, Repr

/-- JS falsiness of `process.env.X`: unset or the empty string. -/
def envFalsy : Option String → Bool
  | none => true
  | some s => s == ""

/-- The credentials guard `!CLIENT_EMAIL || !PRIVATE_KEY`. -/
def credsMissing (env : SheetsEnv) : Bool :=
  envFalsy env.clientEmail || envFalsy env.privateKey

/-- TS `q.language?.toUpperCase() || 'N/A'`. -/
def upperOrNA (lang : Option String) : String :=
  match lang with
  | none => "N/A"
  | some s => if upperStr s == "" then "N/A" else upperStr s

/-- The per-question label of the dry-run and failure responses:
`` `${q.title} (${q.language?.toUpperCase() || 'N/A'})` ``. -/
def summaryLabel (q : Question) : String :=
  q.title ++ " (" ++ upperOrNA q.language ++ ")"

/-- Difficulty serialised as in the request body. -/
def diffStr : Difficulty → String
  | Difficulty.easy => "easy"
  | Difficulty.medium => "medium"
  | Difficulty.hard => "hard"

/-- The named route's `Type` cell. -/
def typeCell : ParamType → String
  | ParamType.fromScratch => "Complete Implementation"
  | ParamType.completeCode => "Function Template"

/-- One eighteen-column row of the named sheets route. -/
def rowFor18 (timestamp : String) (p : InputParameters) (q : Question) : Row :=
  [timestamp, p.positionName, p.topic, upperStr (diffStr p.difficultyLevel),
   typeCell p.type, upperOrNA q.language, p.problem, p.hint,
   q.title, q.problemStatement, q.inputFormat, q.outputFormat, q.constraints,
   q.sampleInput, q.sampleOutput, (q.implementation).getD "",
   "Time: O(?), Space: O(?)", String.intercalate (", ") p.languages]

/-- Header row of the named sheets route. -/
def headerRow18 : Row :=
  [("Timestamp"), ("Position"), ("Topic"), ("Difficulty"), ("Type"), ("Language"),
   ("Additional Context"), ("Hint/Focus"), ("Question Title"), ("Problem Statement"),
   ("Input Format"), ("Output Format"), ("Constraints"), ("Sample Input"),
   ("Sample Output"), ("Code Implementation"), ("Time/Space Complexity"),
   ("All Selected Languages")]

/-- The named sheets route handler.  `questions = none` models a missing field;
`appendResult` is the backend's answer to the append call (`updatedRows` may be
absent). -/
def sheetsPost (env : SheetsEnv) (questions : Option (List Question))
    (p : InputParameters) (timestamp : String) (headerUpdateOk : Bool)
    (appendResult : Except String (Option Nat)) : SheetsOutcome :=
  match questions with
  | none => { response := SheetsResponse.badRequest ("No questions provided"), calls := [] }
  | some qs =>
    if qs.isEmpty then
      { response := SheetsResponse.badRequest ("No questions provided"), calls := [] }
    else if credsMissing env then
      { response := SheetsResponse.dryRun
          (Nat.repr qs.length ++ " questions would be sent to Google Sheets")
          ("Google Sheets credentials not configured. Questions logged to console.")
          (qs.map summaryLabel)
        calls := [] }
    else
      let values := qs.map (rowFor18 timestamp p)
      let calls := [SheetsCall.updateHeader ("Sheet1!A1:R1") [headerRow18],
                    SheetsCall.appendRows ("Sheet1!A:R") values]
      match appendResult with
      | Except.ok u =>
        { response := SheetsResponse.ok
            (Nat.repr qs.length ++ " question entries successfully sent to Google Sheets")
            ("Each language creates a separate row in the sheet") (u.getD 0)
          calls := calls }
      | Except.error msg =>
        { response := SheetsResponse.sheetsFailure ("Failed to connect to Google Sheets") msg
            (Nat.repr qs.length ++ " questions logged to console") (qs.map summaryLabel)
          calls := calls }

/-- The consolidated problem cell of the unnamed sheets route: statement, a
worked example from the sample input and output, the constraints, and the
implementation when present (TS falsiness: absent or empty skips it). -/
def consolidatedCell (q : Question) : String :=
  q.problemStatement ++ "\n\nExample:\nInput: " ++ q.sampleInput ++ "\nOutput: "
    ++ q.sampleOutput ++ "\n\nConstraints:\n" ++ q.constraints ++
    (match q.implementation with
     | none => ""
     | some impl => if impl == "" then "" else "\n\n" ++ impl)

/-- The `Hint` cell of the unnamed route: `inputParameters.hint || question.hint || ''`. -/
def hintCellC (p : InputParamsC) (q : Question) : String :=
  if p.hint ≠ "" then p.hint
  else match q.hint with
       | none => ""
       | some h => h

/-- The generator mode serialised as in the request body. -/
def typeStrC : QType → String
  | QType.complete_code => "complete_code"
  | QType.write_code => "write_code"

/-- One six-column row of the unnamed sheets route. -/
def rowForC (p : InputParamsC) (q : Question) : Row :=
  [p.positionName, upperOrNA q.language, consolidatedCell q, hintCellC p q,
   typeStrC p.type, diffStr p.difficultyLevel]

/-- Header row of the unnamed sheets route. -/
def headerRowC : Row :=
  [("Position Name"), ("Language"), ("Problem"), ("Hint"), ("Type"), ("Difficulty level")]

/-- The unnamed (consolidated-row) sheets route handler. -/
def sheetsPostC (env : SheetsEnv) (questions : Option (List Question))
    (p : InputParamsC) (headerUpdateOk : Bool)
    (appendResult : Except String (Option Nat)) : SheetsOutcome :=
  match questions with
  | none => { response := SheetsResponse.badRequest ("No questions provided"), calls := [] }
  | some qs =>
    if qs.isEmpty then
      { response := SheetsResponse.badRequest ("No questions provided"), calls := [] }
    else if credsMissing env then
      { response := SheetsResponse.dryRun
          (Nat.repr qs.length ++ " questions would be sent to Google Sheets")
          ("Google Sheets credentials not configured. Questions logged to console.")
          (qs.map summaryLabel)
        calls := [] }
    else
      let values := qs.map (rowForC p)
      let calls := [SheetsCall.updateHeader ("Sheet1!A1:F1") [headerRowC],
                    SheetsCall.appendRows ("Sheet1!A:F") values]
      match appendResult with
      | Except.ok u =>
        { response := SheetsResponse.ok
            (Nat.repr qs.length ++ " question entries successfully sent to Google Sheets")
            ("Each language creates a separate row in the sheet") (u.getD 0)
          calls := calls }
      | Except.error msg =>
        { response := SheetsResponse.sheetsFailure ("Failed to connect to Google Sheets") msg
            (Nat.repr qs.length ++ " questions logged to console") (qs.map summaryLabel)
          calls := calls }

/-!
Proof toolkit: decimal representations, list indexing, and the padding loop.
-/

theorem digitChar_isDigit {m : Nat} (h : m < 10) : (Nat.digitChar m).isDigit := by
  interval_cases m <;> decide

theorem toDigitsCore_digits : ∀ (fuel n : Nat) (ds : List Char),
    (∀ c ∈ ds, c.isDigit) → ∀ c ∈ Nat.toDigitsCore 10 fuel n ds, c.isDigit
  | 0, n, ds, h => by
    intro c hc
    rw [Nat.toDigitsCore] at hc
    exact h c hc
  | fuel + 1, n, ds, h => by
    intro c hc
    rw [Nat.toDigitsCore] at hc
    by_cases hq : n / 10 = 0
    · simp only [hq, if_true] at hc
      rcases List.mem_cons.mp hc with rfl | hm
      · exact digitChar_isDigit (Nat.mod_lt _ (by decide))
      · exact h c hm
    · simp only [hq, if_false] at hc
      refine toDigitsCore_digits fuel (n / 10) _ ?_ c hc
      intro d hd
      rcases List.mem_cons.mp hd with rfl | hm
      · exact digitChar_isDigit (Nat.mod_lt _ (by decide))
      · exact h d hm

theorem toDigitsCore_ne_nil : ∀ (fuel n : Nat) (ds : List Char),
    fuel ≠ 0 ∨ ds ≠ [] → Nat.toDigitsCore 10 fuel n ds ≠ []
  | 0, n, ds, h => by
    rw [Nat.toDigitsCore]
    rcases h with h | h
    · exact absurd rfl h
    · exact h
  | fuel + 1, n, ds, _ => by
    rw [Nat.toDigitsCore]
    by_cases hq : n / 10 = 0
    · simp [hq]
    · simp only [hq, if_false]
      exact toDigitsCore_ne_nil fuel (n / 10) _ (Or.inr (by simp))

theorem repr_data_digits (n : Nat) : ∀ c ∈ (Nat.repr n).data, c.isDigit := by
  intro c hc
  have : (Nat.repr n).data = Nat.toDigits 10 n := rfl
  rw [this, Nat.toDigits] at hc
  exact toDigitsCore_digits (n + 1) n [] (by intro c h; cases h) c hc

theorem repr_data_ne_nil (n : Nat) : (Nat.repr n).data ≠ [] := by
  have : (Nat.repr n).data = Nat.toDigits 10 n := rfl
  rw [this, Nat.toDigits]
  exact toDigitsCore_ne_nil (n + 1) n [] (Or.inl (by omega))

theorem str_ext {s t : String} (h : s.data = t.data) : s = t := by
  cases s; cases t; simp only at h; rw [h]

theorem repr_no_dash (n : Nat) : ¬ ('-' ∈ (Nat.repr n).data) := by
  intro h
  have := repr_data_digits n '-' h
  simp [Char.isDigit] at this

theorem repr_head_digit (n : Nat) : ∃ c cs, (Nat.repr n).data = c :: cs ∧ c.isDigit := by
  rcases hd : (Nat.repr n).data with _ | ⟨c, cs⟩
  · exact absurd hd (repr_data_ne_nil n)
  · exact ⟨c, cs, rfl, repr_data_digits n c (by rw [hd]; exact List.mem_cons_self c cs)⟩

theorem dash_split : ∀ (a b x y : List Char), ¬ ('-' ∈ a) → ¬ ('-' ∈ b) →
    a ++ '-' :: x = b ++ '-' :: y → a = b ∧ x = y
  | [], [], x, y, _, _, h => by simpa using h
  | [], b :: bs, x, y, _, hb, h => by
    simp only [List.nil_append, List.cons_append, List.cons.injEq] at h
    exact absurd (by rw [← h.1]; exact List.mem_cons_self '-' bs : '-' ∈ b :: bs) hb
  | a :: as, [], x, y, ha, _, h => by
    simp only [List.nil_append, List.cons_append, List.cons.injEq] at h
    exact absurd (by rw [h.1]; exact List.mem_cons_self '-' as : '-' ∈ a :: as) ha
  | a :: as, b :: bs, x, y, ha, hb, h => by
    simp only [List.cons_append, List.cons.injEq] at h
    obtain ⟨rfl, h2⟩ := h
    have := dash_split as bs x y (fun hm => ha (List.mem_cons_of_mem _ hm))
      (fun hm => hb (List.mem_cons_of_mem _ hm)) h2
    exact ⟨by rw [this.1], this.2⟩

theorem repr_inj_le5 {a b : Nat} (ha : a ≤ 5) (hb : b ≤ 5) (h : Nat.repr a = Nat.repr b) :
    a = b := by
  interval_cases a <;> interval_cases b <;> first | rfl | (exact absurd h (by decide))

theorem padLoop_length (mk : Nat → Question) : ∀ (n : Nat) (qs : List Question),
    (padLoop mk qs n).length = qs.length + n
  | 0, qs => by simp [padLoop]
  | n + 1, qs => by
    rw [padLoop, padLoop_length mk n]
    simp
    omega

theorem padLoop_eq (mk : Nat → Question) : ∀ (n : Nat) (qs : List Question),
    padLoop mk qs n = qs ++ (List.range n).map (fun t => mk (qs.length + t))
  | 0, qs => by simp [padLoop]
  | n + 1, qs => by
    rw [padLoop, padLoop_eq mk n, List.range_succ_eq_map]
    have hfun : (fun t => mk ((qs ++ [mk qs.length]).length + t))
        = (fun t => mk (qs.length + t)) ∘ Nat.succ := by
      funext t
      simp only [Function.comp_apply, List.length_append, List.length_singleton]
      congr 1
      omega
    rw [hfun]
    simp [List.map_map]

theorem enumFrom_length {α : Type} : ∀ (k : Nat) (l : List α), (enumFrom k l).length = l.length
  | _, [] => rfl
  | k, _ :: l => by simp [enumFrom, enumFrom_length (k + 1) l]

theorem enumFrom_getElem? {α : Type} : ∀ (k : Nat) (l : List α) (i : Nat),
    (enumFrom k l)[i]? = l[i]?.map (fun a => (k + i, a))
  | _, [], i => by rw [enumFrom]; simp
  | k, a :: l, 0 => by rw [enumFrom]; simp
  | k, a :: l, i + 1 => by
    rw [enumFrom]
    simp only [List.getElem?_cons_succ, enumFrom_getElem? (k + 1) l i]
    have h : k + 1 + i = k + (i + 1) := by omega
    rw [h]

theorem flatMap_const_length {α β : Type} (f : α → List β) (N : Nat)
    (hf : ∀ a, (f a).length = N) : ∀ l : List α, (l.flatMap f).length = l.length * N
  | [] => by simp
  | a :: l => by
    simp [List.flatMap_cons, flatMap_const_length f N hf l, hf a]
    ring

theorem flatMap_const_getElem? {α β : Type} (f : α → List β) (N : Nat)
    (hf : ∀ a, (f a).length = N) : ∀ (l : List α) (i j : Nat), j < N →
    (l.flatMap f)[i * N + j]? = l[i]?.bind (fun a => (f a)[j]?)
  | [], i, j, hj => by simp
  | a :: l, 0, j, hj => by
    rw [List.flatMap_cons]
    rw [List.getElem?_append_left (by rw [hf a]; simpa using hj)]
    simp
  | a :: l, i + 1, j, hj => by
    rw [List.flatMap_cons]
    rw [List.getElem?_append_right (by rw [hf a]; nlinarith)]
    have harith : (i + 1) * N + j - (f a).length = i * N + j := by rw [hf a]; ring_nf; omega
    rw [harith, flatMap_const_getElem? f N hf l i j hj]
    simp

/-!
Claim theorems: the sheets export route.
-/

/-- A concrete question record used by witnesses. -/
def qDemo : Question :=
  { id := "question-1-0-python"
    title := "Two Sum"
    problemStatement := "Find two indices."
    inputFormat := "array"
    outputFormat := "indices"
    constraints := "n < 100"
    sampleInput := "1 2"
    sampleOutput := "0 1"
    language := some "python"
    implementation := some "def f():\n    pass"
    hint := some "Use a hash map." }

/-- C10: a missing or empty question list makes the sheets endpoint answer 400
with the error body, issue no backend call, and behave identically whatever the
credentials or the append outcome would have been. -/
theorem sheets_empty_questions_bad_request (env env2 : SheetsEnv) (q : Option (List Question))
    (p : InputParameters) (ts : String) (hok : Bool) (ar ar2 : Except String (Option Nat))
    (h : q = none ∨ q = some []) :
    (sheetsPost env q p ts hok ar).response = SheetsResponse.badRequest ("No questions provided")
    ∧ statusOf (sheetsPost env q p ts hok ar).response = 400
    ∧ (sheetsPost env q p ts hok ar).calls = []
    ∧ sheetsPost env q p ts hok ar = sheetsPost env2 q p ts hok ar2 := by
  rcases h with rfl | rfl <;> simp [sheetsPost, statusOf]

theorem sheets_empty_questions_bad_request_witness :
    (sheetsPost { clientEmail := none, privateKey := none } (some [])
        { positionName := "Software Engineer", languages := ["python"], problem := "",
          hint := "", type := ParamType.completeCode, difficultyLevel := Difficulty.easy,
          topic := "Arrays" } "t" true (Except.ok none)).response
      = SheetsResponse.badRequest ("No questions provided") :=
  (sheets_empty_questions_bad_request { clientEmail := none, privateKey := none }
    { clientEmail := some "e", privateKey := some "k" } (some [])
    { positionName := "Software Engineer", languages := ["python"], problem := "",
      hint := "", type := ParamType.completeCode, difficultyLevel := Difficulty.easy,
      topic := "Arrays" } "t" true (Except.ok none) (Except.error "boom") (Or.inr rfl)).1

/-- C7: with a nonempty question list and missing export credentials, the sheets
endpoint answers success with the message carrying the literal question count,
and issues no backend call. -/
theorem sheets_dry_run_no_calls (env : SheetsEnv) (qs : List Question) (p : InputParameters)
    (ts : String) (hok : Bool) (ar : Except String (Option Nat))
    (hne : qs ≠ []) (hmiss : credsMissing env = true) :
    (sheetsPost env (some qs) p ts hok ar).response =
      SheetsResponse.dryRun (Nat.repr qs.length ++ " questions would be sent to Google Sheets")
        ("Google Sheets credentials not configured. Questions logged to console.")
        (qs.map summaryLabel)
    ∧ (sheetsPost env (some qs) p ts hok ar).calls = [] := by
  have hE : qs.isEmpty = false := by
    cases qs with
    | nil => exact absurd rfl hne
    | cons a l => rfl
  simp [sheetsPost, hE, hmiss]

theorem sheets_dry_run_no_calls_witness :
    (sheetsPost { clientEmail := none, privateKey := some "k" } (some [qDemo])
        { positionName := "Software Engineer", languages := ["python"], problem := "",
          hint := "", type := ParamType.completeCode, difficultyLevel := Difficulty.easy,
          topic := "Arrays" } "t" true (Except.ok none)).response =
      SheetsResponse.dryRun ("1 questions would be sent to Google Sheets")
        ("Google Sheets credentials not configured. Questions logged to console.")
        [("Two Sum (PYTHON)")]
    ∧ (sheetsPost { clientEmail := none, privateKey := some "k" } (some [qDemo])
        { positionName := "Software Engineer", languages := ["python"], problem := "",
          hint := "", type := ParamType.completeCode, difficultyLevel := Difficulty.easy,
          topic := "Arrays" } "t" true (Except.ok none)).calls = [] := by
  have h := sheets_dry_run_no_calls { clientEmail := none, privateKey := some "k" } [qDemo]
    { positionName := "Software Engineer", languages := ["python"], problem := "",
      hint := "", type := ParamType.completeCode, difficultyLevel := Difficulty.easy,
      topic := "Arrays" } "t" true (Except.ok none) (by decide) (by decide)
  exact ⟨by rw [h.1]; decide, h.2⟩

/-- C8: with credentials configured, the consolidated-row sheets route issues a
header update and one append whose rows are exactly one six-column row per
record; the third cell concatenates statement, worked example, constraints and
implementation (when present and nonempty); and the header update's outcome
affects nothing. -/
theorem sheets_consolidated_rows (env : SheetsEnv) (qs : List Question) (p : InputParamsC)
    (hok hok2 : Bool) (ar : Except String (Option Nat))
    (hne : qs ≠ []) (hcreds : credsMissing env = false) :
    (sheetsPostC env (some qs) p hok ar).calls =
      [SheetsCall.updateHeader ("Sheet1!A1:F1") [headerRowC],
       SheetsCall.appendRows ("Sheet1!A:F") (qs.map (rowForC p))]
    ∧ (qs.map (rowForC p)).length = qs.length
    ∧ headerRowC.length = 6
    ∧ (∀ q ∈ qs, (rowForC p q).length = 6
        ∧ (rowForC p q)[2]? = some
            (q.problemStatement ++ "\n\nExample:\nInput: " ++ q.sampleInput ++ "\nOutput: "
              ++ q.sampleOutput ++ "\n\nConstraints:\n" ++ q.constraints ++
              (match q.implementation with
               | none => ""
               | some impl => if impl == "" then "" else "\n\n" ++ impl)))
    ∧ sheetsPostC env (some qs) p hok ar = sheetsPostC env (some qs) p hok2 ar := by
  have hE : qs.isEmpty = false := by
    cases qs with
    | nil => exact absurd rfl hne
    | cons a l => rfl
  refine ⟨?_, by simp, by rfl, ?_, ?_⟩
  · cases ar <;> simp [sheetsPostC, hE, hcreds]
  · intro q _
    exact ⟨rfl, rfl⟩
  · cases ar <;> simp [sheetsPostC, hE, hcreds]

theorem sheets_consolidated_rows_witness :
    (sheetsPostC { clientEmail := some "e", privateKey := some "k" } (some [qDemo])
        { positionName := "Software Engineer", languages := ["python"], problem := "",
          hint := "", type := QType.complete_code, difficultyLevel := Difficulty.easy,
          topic := "Arrays" } false (Except.ok (some 1))).calls =
      [SheetsCall.updateHeader ("Sheet1!A1:F1") [headerRowC],
       SheetsCall.appendRows ("Sheet1!A:F")
         ([qDemo].map (rowForC
           { positionName := "Software Engineer", languages := ["python"], problem := "",
             hint := "", type := QType.complete_code, difficultyLevel := Difficulty.easy,
             topic := "Arrays" }))]
    ∧ sheetsPostC { clientEmail := some "e", privateKey := some "k" } (some [qDemo])
        { positionName := "Software Engineer", languages := ["python"], problem := "",
          hint := "", type := QType.complete_code, difficultyLevel := Difficulty.easy,
          topic := "Arrays" } false (Except.ok (some 1)) =
      sheetsPostC { clientEmail := some "e", privateKey := some "k" } (some [qDemo])
        { positionName := "Software Engineer", languages := ["python"], problem := "",
          hint := "", type := QType.complete_code, difficultyLevel := Difficulty.easy,
          topic := "Arrays" } true (Except.ok (some 1)) := by
  have h := sheets_consolidated_rows { clientEmail := some "e", privateKey := some "k" } [qDemo]
    { positionName := "Software Engineer", languages := ["python"], problem := "",
      hint := "", type := QType.complete_code, difficultyLevel := Difficulty.easy,
      topic := "Arrays" } false true (Except.ok (some 1)) (by decide) (by decide)
  exact ⟨h.1, h.2.2.2.2⟩

/-!
Claim theorems: hint cleaning and field fallbacks.
-/

theorem trimL_length_le (l : List Char) : (trimL l).length ≤ l.length := by
  have h1 := (List.dropWhile_sublist (p := isWsChar)
    (l := (l.dropWhile isWsChar).reverse)).length_le
  have h2 := (List.dropWhile_sublist (p := isWsChar) (l := l)).length_le
  simp only [trimL, List.length_reverse] at h1 ⊢
  omega

/-- C5: the hint cleaner keeps the first sentence-like segment exactly when the
segment falls in the 10 to 200 window and has no brace or parenthesis, truncates
the cleaned text to 200 characters otherwise, and its output never exceeds 200
characters. -/
theorem cleanHint_window_and_bound (h : String) :
    (cleanHint h).length ≤ 200
    ∧ (h ≠ "" → hintWindow (firstSeg (hintClean1 h.data)) = true →
        cleanHint h = (firstSeg (hintClean1 h.data)).asString)
    ∧ (h ≠ "" → hintWindow (firstSeg (hintClean1 h.data)) = false →
        cleanHint h = (trimL ((hintClean1 h.data).take 200)).asString) := by
  have hdata : h.data.isEmpty = true ↔ h = "" := by
    constructor
    · intro hh
      apply str_ext
      simpa [List.isEmpty_iff] using hh
    · intro hh
      rw [hh]
      rfl
  refine ⟨?_, ?_, ?_⟩
  · show (cleanHintL h.data).length ≤ 200
    rw [cleanHintL]
    by_cases he : h.data.isEmpty = true
    · rw [if_pos he]
      exact Nat.zero_le 200
    · rw [if_neg he]
      by_cases hw : hintWindow (firstSeg (hintClean1 h.data)) = true
      · rw [if_pos hw]
        have hlt : (firstSeg (hintClean1 h.data)).length < 200 := by
          simp only [hintWindow, Bool.and_eq_true, decide_eq_true_eq] at hw
          exact hw.1.1.2
        omega
      · rw [if_neg hw]
        calc (trimL ((hintClean1 h.data).take 200)).length
            ≤ ((hintClean1 h.data).take 200).length := trimL_length_le _
          _ ≤ 200 := List.length_take_le 200 _
  · intro hne hw
    show (cleanHintL h.data).asString = _
    rw [cleanHintL]
    rw [if_neg (fun hh => hne (hdata.mp hh)), if_pos hw]
  · intro hne hw
    show (cleanHintL h.data).asString = _
    rw [cleanHintL]
    rw [if_neg (fun hh => hne (hdata.mp hh)), if_neg (by simp [hw])]

theorem cleanHint_window_and_bound_witness :
    (cleanHint ("Use two pointers to narrow the range")).length ≤ 200
    ∧ cleanHint ("Use two pointers to narrow the range")
        = (firstSeg (hintClean1 ("Use two pointers to narrow the range").data)).asString :=
  ⟨(cleanHint_window_and_bound ("Use two pointers to narrow the range")).1,
   (cleanHint_window_and_bound ("Use two pointers to narrow the range")).2.1
     (by decide) (by decide)⟩

/-- C4 counterexample: the string is a fixed point of the removal/trim stage
(the claim's stated characterisation of an already-clean hint), yet applying
the cleaner twice differs from applying it once, because the first-sentence
window can expose an access-modifier line that the next pass then deletes. -/
theorem cleanHint_stage_fixed_not_idempotent :
    hintClean1Str ("ok public why not. yes\nz") = "ok public why not. yes\nz"
    ∧ cleanHint (cleanHint ("ok public why not. yes\nz"))
        ≠ cleanHint ("ok public why not. yes\nz") := by
  constructor
  · decide
  · decide

/-- C4 amended: on fixed points of the full cleaner itself, a second application
changes nothing. -/
theorem cleanHint_idempotent_on_fixed_points (h : String) (hfix : cleanHint h = h) :
    cleanHint (cleanHint h) = cleanHint h := by
  rw [hfix]
  exact hfix

theorem cleanHint_idempotent_on_fixed_points_witness :
    cleanHint (cleanHint ("Keep checking both halves of the array"))
      = cleanHint ("Keep checking both halves of the array") :=
  cleanHint_idempotent_on_fixed_points ("Keep checking both halves of the array") (by decide)

theorem findFrom_none_of_occurs_false {lab : String} {s : List Char}
    (h : occursCI lab s = false) : findFrom lab.data s 0 = none := by
  unfold occursCI at h
  cases hf : findFrom lab.data s 0 with
  | none => rfl
  | some v => rw [hf] at h; simp at h

theorem extractFieldA_none {lab : List Char} {terms : List (List Char)} {ae ea nn : Bool}
    {s : List Char} (h : findFrom lab s 0 = none) :
    extractFieldA lab terms ae ea nn s 0 (s.length + 1) = none := by
  rw [extractFieldA, h]

/-- C3 amended: in both parsers, a block from which a label is entirely absent
gets the documented nonempty fallback string for the seven content fields, while
the hint field becomes the empty string (`cleanHint` of the empty capture), not
a fallback. -/
theorem missing_label_fallbacks (now i : Nat) (block : List Char) :
    (occursCI ("Title:") block = false →
      (mkBaseQuestion now i block).title = "Question " ++ Nat.repr (i + 1)
      ∧ (mkImplBase now i block).title = "Question " ++ Nat.repr (i + 1))
    ∧ (occursCI ("Problem Statement:") block = false →
      (mkBaseQuestion now i block).problemStatement = "Problem statement not found"
      ∧ (mkImplBase now i block).problemStatement = "Problem statement not found")
    ∧ (occursCI ("Input Format:") block = false →
      (mkBaseQuestion now i block).inputFormat = "Input format not specified"
      ∧ (mkImplBase now i block).inputFormat = "Input format not specified")
    ∧ (occursCI ("Output Format:") block = false →
      (mkBaseQuestion now i block).outputFormat = "Output format not specified"
      ∧ (mkImplBase now i block).outputFormat = "Output format not specified")
    ∧ (occursCI ("Constraints:") block = false →
      (mkBaseQuestion now i block).constraints = "Constraints not specified"
      ∧ (mkImplBase now i block).constraints = "Constraints not specified")
    ∧ (occursCI ("Sample Input:") block = false →
      (mkBaseQuestion now i block).sampleInput = "Sample input not provided"
      ∧ (mkImplBase now i block).sampleInput = "Sample input not provided")
    ∧ (occursCI ("Sample Output:") block = false →
      (mkBaseQuestion now i block).sampleOutput = "Sample output not provided"
      ∧ (mkImplBase now i block).sampleOutput = "Sample output not provided")
    ∧ (occursCI ("Hint:") block = false →
      (mkBaseQuestion now i block).hint = some ""
      ∧ (mkImplBase now i block).hint = some "") := by
  refine ⟨?_, ?_, ?_, ?_, ?_, ?_, ?_, ?_⟩ <;>
    intro h <;>
    rw [mkBaseQuestion, mkImplBase] <;>
    simp only [extractField, extractTitle, extractFieldA_none (findFrom_none_of_occurs_false h),
      fieldOr, optTrim] <;>
    simp [cleanHintL] <;>
    decide

/-- C3 counterexample: a block with no labels at all parses to a record whose
hint field is the empty string, refuting the claim's "never the empty string"
for the Hint field. -/
theorem hint_field_empty_when_absent :
    ((parseBaseQuestions 0 ("QUESTION 1: no labels at all here"))[0]?).map Question.hint
      = some (some "") := by decide

theorem missing_label_fallbacks_witness :
    (mkBaseQuestion 0 0 ("plain text").data).problemStatement = "Problem statement not found"
    ∧ (mkBaseQuestion 0 0 ("plain text").data).hint = some "" := by
  have h := missing_label_fallbacks 0 0 ("plain text").data
  exact ⟨(h.2.1 (by decide)).1, (h.2.2.2.2.2.2.2 (by decide)).1⟩

/-!
Claim theorems: the generate parsers (batch size, expansion, padding,
identifier uniqueness).
-/

theorem getElem?_eq_getD {α : Type} (l : List α) (i : Nat) (d : α) (h : i < l.length) :
    l[i]? = some (l.getD i d) := by
  rw [List.getD_eq_getElem?_getD]
  rcases hl : l[i]? with _ | a
  · exact absurd (List.getElem?_eq_none_iff.mp hl) (by omega)
  · rfl

theorem langLoopGo_length_of_ok (base : Question) (i : Nat) (outc : String → LangOutcome)
    (allLangs : List String) (hok : ∀ lang, outc lang ≠ LangOutcome.raise) :
    ∀ rest : List String, (langLoopGo base i outc allLangs rest).length = rest.length := by
  intro rest
  induction rest with
  | nil => rfl
  | cons lang rest ih =>
    rw [langLoopGo]
    rcases ho : outc lang with impl | _
    · simp [ih]
    · exact absurd ho (hok lang)

theorem langLoopGo_length_ge (base : Question) (i : Nat) (outc : String → LangOutcome)
    (allLangs : List String) :
    ∀ rest : List String,
      min rest.length allLangs.length ≤ (langLoopGo base i outc allLangs rest).length := by
  intro rest
  induction rest with
  | nil => simp [langLoopGo]
  | cons lang rest ih =>
    rw [langLoopGo]
    rcases ho : outc lang with impl | _
    · simp only [List.length_cons]
      omega
    · simp only [List.length_map, List.length_cons]
      omega

theorem blockQuestions_length_of_ok (now : Nat) (fd : FormData)
    (outcomes : Nat → List Char → String → LangOutcome) (i : Nat) (block : List Char)
    (hok : ∀ lang, outcomes i block lang ≠ LangOutcome.raise) :
    (blockQuestions now fd outcomes i block).length = fd.languages.length :=
  langLoopGo_length_of_ok (mkImplBase now i block) i (outcomes i block) fd.languages hok
    fd.languages

theorem blockQuestions_length_ge (now : Nat) (fd : FormData)
    (outcomes : Nat → List Char → String → LangOutcome) (i : Nat) (block : List Char) :
    fd.languages.length ≤ (blockQuestions now fd outcomes i block).length := by
  have h := langLoopGo_length_ge (mkImplBase now i block) i (outcomes i block)
    fd.languages fd.languages
  simpa using h

theorem flatMap_length_ge {α β : Type} (f : α → List β) (N : Nat)
    (hf : ∀ a, N ≤ (f a).length) : ∀ l : List α, l.length * N ≤ (l.flatMap f).length
  | [] => by simp
  | a :: l => by
    simp only [List.flatMap_cons, List.length_append, List.length_cons]
    have h1 := flatMap_length_ge f N hf l
    have h2 := hf a
    calc (l.length + 1) * N = N + l.length * N := by ring
      _ ≤ (f a).length + (l.flatMap f).length := Nat.add_le_add h2 h1

theorem parsedBlockCount_le_five (text : String) : parsedBlockCount text ≤ 5 := by
  rw [parsedBlockCount, takenBlocks, List.length_map]
  exact List.length_take_le 5 _

theorem basePre_length (now : Nat) (text : String) :
    (basePre now text).length = parsedBlockCount text := by
  rw [basePre, List.length_map, enumFrom_length, parsedBlockCount]

theorem implPre_length_of_ok (now : Nat) (fd : FormData)
    (outcomes : Nat → List Char → String → LangOutcome) (text : String)
    (hok : ∀ i bl lang, outcomes i bl lang ≠ LangOutcome.raise) :
    (implPre now fd outcomes text).length = parsedBlockCount text * fd.languages.length := by
  have h := flatMap_const_length (fun ib : Nat × List Char => blockQuestions now fd outcomes ib.1 ib.2)
    fd.languages.length
    (fun ib => blockQuestions_length_of_ok now fd outcomes ib.1 ib.2 (hok ib.1 ib.2))
    (enumFrom 0 (takenBlocks text))
  rw [implPre, h, enumFrom_length, parsedBlockCount]

theorem implPre_length_ge (now : Nat) (fd : FormData)
    (outcomes : Nat → List Char → String → LangOutcome) (text : String) :
    parsedBlockCount text * fd.languages.length ≤ (implPre now fd outcomes text).length := by
  have h := flatMap_length_ge (fun ib : Nat × List Char => blockQuestions now fd outcomes ib.1 ib.2)
    fd.languages.length (fun ib => blockQuestions_length_ge now fd outcomes ib.1 ib.2)
    (enumFrom 0 (takenBlocks text))
  rw [enumFrom_length] at h
  rw [implPre, parsedBlockCount]
  exact h

theorem parseBaseQuestions_length (now : Nat) (text : String) :
    (parseBaseQuestions now text).length = 5 := by
  rw [parseBaseQuestions, List.length_take, padLoop_length, basePre_length]
  have h := parsedBlockCount_le_five text
  omega

theorem parseImpl_length (now : Nat) (fd : FormData)
    (outcomes : Nat → List Char → String → LangOutcome) (text : String) :
    (parseQuestionsWithImplementations now fd outcomes text).length
      = 5 * fd.languages.length := by
  rw [parseQuestionsWithImplementations, List.length_take, padLoop_length]
  omega

theorem parseBase_getElem?_pad (now : Nat) (text : String) (k : Nat)
    (h1 : parsedBlockCount text ≤ k) (h2 : k < 5) :
    (parseBaseQuestions now text)[k]? = some (basePad k) := by
  rw [parseBaseQuestions, List.getElem?_take_of_lt h2, padLoop_eq]
  rw [List.getElem?_append_right (by rw [basePre_length]; exact h1)]
  rw [List.getElem?_map]
  rw [List.getElem?_range (by rw [basePre_length]; omega)]
  simp only [Option.map_some']
  have hk : parsedBlockCount text + (k - parsedBlockCount text) = k := by omega
  rw [basePre_length, hk]

theorem parseBase_getElem?_pre (now : Nat) (text : String) (k : Nat)
    (h1 : k < parsedBlockCount text) :
    (parseBaseQuestions now text)[k]? =
      some (mkBaseQuestion now k ((takenBlocks text).getD k [])) := by
  rw [parseBaseQuestions,
    List.getElem?_take_of_lt (lt_of_lt_of_le h1 (parsedBlockCount_le_five text)), padLoop_eq]
  rw [List.getElem?_append_left (by rw [basePre_length]; exact h1)]
  rw [basePre, List.getElem?_map, enumFrom_getElem?]
  rw [getElem?_eq_getD (takenBlocks text) k [] (by rw [parsedBlockCount] at h1; exact h1)]
  simp only [Option.map_some', Nat.zero_add]

theorem parseImpl_getElem?_pad (now : Nat) (fd : FormData)
    (outcomes : Nat → List Char → String → LangOutcome) (text : String) (r : Nat)
    (hok : ∀ i bl lang, outcomes i bl lang ≠ LangOutcome.raise)
    (h1 : parsedBlockCount text * fd.languages.length ≤ r)
    (h2 : r < 5 * fd.languages.length) :
    (parseQuestionsWithImplementations now fd outcomes text)[r]?
      = some (implPad fd.languages r) := by
  rw [parseQuestionsWithImplementations, List.getElem?_take_of_lt h2, padLoop_eq]
  rw [List.getElem?_append_right
    (by rw [implPre_length_of_ok now fd outcomes text hok]; exact h1)]
  rw [List.getElem?_map]
  rw [List.getElem?_range (by rw [implPre_length_of_ok now fd outcomes text hok]; omega)]
  simp only [Option.map_some']
  have hr : parsedBlockCount text * fd.languages.length
      + (r - parsedBlockCount text * fd.languages.length) = r := by omega
  rw [implPre_length_of_ok now fd outcomes text hok, hr]

/-- C1: the implementation parser returns exactly `5 × languages.length`
records for every raw completion text, every request, and every behaviour of
the regex engine in the per-language extraction (any pattern of successful
extractions and raised exceptions, covered by quantifying over all outcome
functions — the unescaped `new RegExp` of pattern 2 can raise): blocks beyond
the fifth are dropped, the catch branch and the padding while-loop only add
records, and the final slice fixes the count. -/
theorem parse_impl_exact_count (now : Nat) (fd : FormData)
    (outcomes : Nat → List Char → String → LangOutcome) (text : String) :
    (parseQuestionsWithImplementations now fd outcomes text).length
      = 5 * fd.languages.length :=
  parseImpl_length now fd outcomes text

/-- C6 amended: the base parser always pads every position at or past the
parsed block count with `basePad k` (title "Question (k+1)" and the
incomplete-generation problem statement).  The implementation parser does the
same with `implPad` records (title "Question (r / N + 1)", the zero-based
base-question position plus one) at record positions at or past
parsedCount × N — provided no per-language extraction raises: the unescaped
`new RegExp` of pattern 2 can raise (for example languages = ["python",
"c++"]), and the catch records then shift the padding positions and question
indices (see the counterexample below). -/
theorem parser_padding_records (now : Nat) (fd : FormData)
    (outcomes : Nat → List Char → String → LangOutcome) (text : String) :
    (∀ k, parsedBlockCount text ≤ k → k < 5 →
      (parseBaseQuestions now text)[k]? = some (basePad k)
      ∧ (basePad k).title = "Question " ++ Nat.repr (k + 1)
      ∧ (basePad k).problemStatement = "Question generation incomplete. Please try again.")
    ∧ ((∀ i bl lang, outcomes i bl lang ≠ LangOutcome.raise) →
       ∀ r, parsedBlockCount text * fd.languages.length ≤ r →
        r < 5 * fd.languages.length →
      (parseQuestionsWithImplementations now fd outcomes text)[r]?
          = some (implPad fd.languages r)
      ∧ (implPad fd.languages r).title
          = "Question " ++ Nat.repr (r / fd.languages.length + 1)
      ∧ (implPad fd.languages r).problemStatement
          = "Question generation incomplete. Please try again.") := by
  constructor
  · intro k h1 h2
    exact ⟨parseBase_getElem?_pad now text k h1 h2, rfl, rfl⟩
  · intro hok r h1 h2
    exact ⟨parseImpl_getElem?_pad now fd outcomes text r hok h1 h2, rfl, rfl⟩

theorem parser_padding_records_witness :
    (parseBaseQuestions 5 ("QUESTION 1: a\nQUESTION 2: b"))[3]? = some (basePad 3)
    ∧ (parseQuestionsWithImplementations 5
        { positionName := "p", languages := ["python"], problem := "", hint := "",
          type := QType.complete_code, difficultyLevel := Difficulty.easy, topic := "t" }
        (fun _ _ _ => LangOutcome.ok "")
        ("QUESTION 1: a\nQUESTION 2: b"))[3]? = some (implPad ["python"] 3) := by
  have h := parser_padding_records 5
    { positionName := "p", languages := ["python"], problem := "", hint := "",
      type := QType.complete_code, difficultyLevel := Difficulty.easy, topic := "t" }
    (fun _ _ _ => LangOutcome.ok "")
    ("QUESTION 1: a\nQUESTION 2: b")
  exact ⟨(h.1 3 (by decide) (by decide)).1,
    (h.2 (fun _ _ _ h2 => LangOutcome.noConfusion h2) 3 (by decide) (by decide)).1⟩

/-- The completion text of the padding counterexample: one block carrying a
PYTHON_TEMPLATE section and no C++ key. -/
def cxText : String :=
  "QUESTION 1:\nTitle: Sum\nProblem Statement: Add.\nInput Format: i\nOutput Format: o\nConstraints: c\nSample Input: 1\nSample Output: 3\nHint: Use addition here always.\n\nFUNCTION TEMPLATES:\nPYTHON_TEMPLATE:\ndef add(a, b):\n    pass"

/-- The request of the padding counterexample. -/
def cxFormData : FormData :=
  { positionName := "Software Engineer", languages := ["python", "c++"], problem := "",
    hint := "", type := QType.complete_code, difficultyLevel := Difficulty.easy,
    topic := "Arrays" }

/-- The extraction outcomes the JS engine produces for `cxFormData` on
`cxText`: for "python", pattern 1 — whose interpolations are escaped and hence
literal — matches the block's PYTHON_TEMPLATE section, so the iteration
completes with the `implValue` string; for "c++", pattern 1 finds no
`C\+\+_TEMPLATE:` key and the source then constructs pattern 2's
`new RegExp` on the unescaped "C++", which is invalid regex syntax (nothing to
repeat) and raises SyntaxError. -/
def cxOutcomes : Nat → List Char → String → LangOutcome :=
  fun _ block lang =>
    if lang = "c++" then LangOutcome.raise
    else LangOutcome.ok (implValue cxFormData block lang)

/-- C6 counterexample: on this request the one block contributes the parsed
python record and then, after the raise at "c++", the two catch records, so
record position 2 = parsedCount × N holds the catch record
`question-fallback-0-c++` and not the `implPad` padding record the claim
demands at every position at or past parsedCount × N. -/
theorem impl_padding_shifted_by_parse_error :
    parsedBlockCount cxText = 1
    ∧ ((parseQuestionsWithImplementations 0 cxFormData cxOutcomes cxText)[2]?).map Question.id
        = some ("question-fallback-0-c++")
    ∧ (parseQuestionsWithImplementations 0 cxFormData cxOutcomes cxText)[2]?
        ≠ some (implPad cxFormData.languages 2) := by
  refine ⟨by decide, by decide, by decide⟩

/-- C2: in `write_code` mode the endpoint returns exactly `5 × N` records, and
the record at position `i × N + j` is exactly the `i`-th base question with only
the language tag set and the language appended to its identifier — so the `N`
records of one group share every problem-content field. -/
theorem write_code_expansion (now : Nat) (fd : FormData) (text : String) :
    (writeCodeQuestions now fd text).length = 5 * fd.languages.length
    ∧ (∀ i j, i < 5 → j < fd.languages.length →
        ∃ q lang, (parseBaseQuestions now text)[i]? = some q
          ∧ fd.languages[j]? = some lang
          ∧ (writeCodeQuestions now fd text)[i * fd.languages.length + j]? =
              some { q with id := q.id ++ "-" ++ lang, language := some lang }) := by
  have hlen : ∀ q : Question,
      (fd.languages.map (fun lang =>
        { q with id := q.id ++ "-" ++ lang, language := some lang })).length
        = fd.languages.length := by
    intro q
    simp
  constructor
  · rw [writeCodeQuestions]
    have h := flatMap_const_length
      (fun q : Question => fd.languages.map (fun lang =>
        { q with id := q.id ++ "-" ++ lang, language := some lang }))
      fd.languages.length hlen (parseBaseQuestions now text)
    rw [h, parseBaseQuestions_length]
  · intro i j hi hj
    have hq : ∃ q, (parseBaseQuestions now text)[i]? = some q := by
      rcases hh : (parseBaseQuestions now text)[i]? with _ | q
      · have hlen2 := List.getElem?_eq_none_iff.mp hh
        rw [parseBaseQuestions_length] at hlen2
        omega
      · exact ⟨q, rfl⟩
    obtain ⟨q, hq⟩ := hq
    refine ⟨q, fd.languages.getD j "", hq, getElem?_eq_getD _ _ _ hj, ?_⟩
    rw [writeCodeQuestions]
    have h := flatMap_const_getElem?
      (fun q : Question => fd.languages.map (fun lang =>
        { q with id := q.id ++ "-" ++ lang, language := some lang }))
      fd.languages.length hlen (parseBaseQuestions now text) i j hj
    rw [h, hq]
    simp only [Option.some_bind]
    rw [List.getElem?_map, getElem?_eq_getD fd.languages j "" hj]
    simp only [Option.map_some']

theorem write_code_expansion_witness :
    (writeCodeQuestions 3
      { positionName := "p", languages := ["python", "java"], problem := "", hint := "",
        type := QType.write_code, difficultyLevel := Difficulty.easy, topic := "t" }
      ("QUESTION 1: x")).length = 10
    ∧ (∃ q lang, (parseBaseQuestions 3 ("QUESTION 1: x"))[0]? = some q
        ∧ (["python", "java"] : List String)[1]? = some lang
        ∧ (writeCodeQuestions 3
            { positionName := "p", languages := ["python", "java"], problem := "", hint := "",
              type := QType.write_code, difficultyLevel := Difficulty.easy, topic := "t" }
            ("QUESTION 1: x"))[1]? =
            some { q with id := q.id ++ "-" ++ lang, language := some lang }) := by
  have h := write_code_expansion 3
    { positionName := "p", languages := ["python", "java"], problem := "", hint := "",
      type := QType.write_code, difficultyLevel := Difficulty.easy, topic := "t" }
    ("QUESTION 1: x")
  exact ⟨h.1, h.2 0 1 (by decide) (by decide)⟩

/-- Identifier of a parsed-block record: `question-<now>-<block>-<language>`. -/
def implParsedId (now i : Nat) (lang : String) : String :=
  "question-" ++ Nat.repr now ++ "-" ++ Nat.repr i ++ "-" ++ lang

/-- Identifier shape `question-fallback-<index>-<language>`, shared by the
padding records (index = question index) and the catch branch's parse-error
records (index = block index). -/
def implPadId (qi : Nat) (lang : String) : String :=
  "question-fallback-" ++ Nat.repr qi ++ "-" ++ lang

theorem implParsedId_parts {now i i' : Nat} {l l' : String}
    (h : implParsedId now i l = implParsedId now i' l') :
    Nat.repr i = Nat.repr i' ∧ l = l' := by
  have hd := congrArg String.data h
  simp only [implParsedId, String.data_append, List.append_assoc] at hd
  replace hd := List.append_cancel_left hd
  replace hd := List.append_cancel_left hd
  replace hd := List.append_cancel_left hd
  simp only [List.singleton_append] at hd
  have hs := dash_split _ _ _ _ (repr_no_dash i) (repr_no_dash i') hd
  exact ⟨str_ext hs.1, str_ext hs.2⟩

theorem implPadId_parts {q q' : Nat} {l l' : String}
    (h : implPadId q l = implPadId q' l') : Nat.repr q = Nat.repr q' ∧ l = l' := by
  have hd := congrArg String.data h
  simp only [implPadId, String.data_append, List.append_assoc] at hd
  replace hd := List.append_cancel_left hd
  simp only [List.singleton_append] at hd
  have hs := dash_split _ _ _ _ (repr_no_dash q) (repr_no_dash q') hd
  exact ⟨str_ext hs.1, str_ext hs.2⟩

theorem implParsedId_ne_implPadId (now i qi : Nat) (l l' : String) :
    implParsedId now i l ≠ implPadId qi l' := by
  intro h
  have hd := congrArg String.data h
  have hsplit : ("question-fallback-" : String).data
      = ("question-" : String).data ++ ("fallback-" : String).data := by decide
  simp only [implParsedId, implPadId, String.data_append, List.append_assoc, hsplit] at hd
  replace hd := List.append_cancel_left hd
  obtain ⟨c, cs, hc, hdig⟩ := repr_head_digit now
  rw [hc] at hd
  rw [List.cons_append] at hd
  injection hd with h1 h2
  rw [h1] at hdig
  exact absurd hdig (by decide)

theorem mkImplBase_id (now i : Nat) (block : List Char) :
    (mkImplBase now i block).id = "question-" ++ Nat.repr now ++ "-" ++ Nat.repr i := rfl

theorem getD_inj_of_nodup {α : Type} {l : List α} {d : α} (hnd : l.Nodup)
    {i j : Nat} (hi : i < l.length) (hj : j < l.length)
    (h : l.getD i d = l.getD j d) : i = j := by
  have hi' : l.getD i d = l.get ⟨i, hi⟩ := by
    rw [List.getD_eq_getElem?_getD, List.getElem?_eq_getElem hi]
    rfl
  have hj' : l.getD j d = l.get ⟨j, hj⟩ := by
    rw [List.getD_eq_getElem?_getD, List.getElem?_eq_getElem hj]
    rfl
  rw [hi', hj'] at h
  exact congrArg Fin.val ((List.Nodup.get_inj_iff hnd).mp h)

theorem langLoopGo_id_shapes (now i : Nat) (block : List Char) (outc : String → LangOutcome)
    (allLangs : List String) :
    ∀ (rest : List String) (q : Question),
      q ∈ langLoopGo (mkImplBase now i block) i outc allLangs rest →
      (∃ l, l ∈ rest ∧ q.id = implParsedId now i l)
      ∨ (∃ l, l ∈ allLangs ∧ q.id = implPadId i l) := by
  intro rest
  induction rest with
  | nil =>
    intro q hq
    rw [langLoopGo] at hq
    exact absurd hq (List.not_mem_nil q)
  | cons lang rest ih =>
    intro q hq
    rw [langLoopGo] at hq
    rcases ho : outc lang with impl | _
    · rw [ho] at hq
      rcases List.mem_cons.mp hq with rfl | hmem
      · exact Or.inl ⟨lang, List.mem_cons_self lang rest, rfl⟩
      · rcases ih q hmem with ⟨l, hl, he⟩ | h2
        · exact Or.inl ⟨l, List.mem_cons_of_mem lang hl, he⟩
        · exact Or.inr h2
    · rw [ho] at hq
      rcases List.mem_map.mp hq with ⟨l, hl, rfl⟩
      exact Or.inr ⟨l, hl, rfl⟩

theorem langLoopGo_ids_nodup (now i : Nat) (block : List Char) (outc : String → LangOutcome)
    (allLangs : List String) (hA : allLangs.Nodup) :
    ∀ rest : List String, rest.Nodup →
      ((langLoopGo (mkImplBase now i block) i outc allLangs rest).map Question.id).Nodup := by
  intro rest
  induction rest with
  | nil =>
    intro _
    rw [langLoopGo]
    exact List.nodup_nil
  | cons lang rest ih =>
    intro hnd
    rw [langLoopGo]
    rcases ho : outc lang with impl | _
    · simp only [List.map_cons, List.nodup_cons]
      constructor
      · intro hmem
        rcases List.mem_map.mp hmem with ⟨q, hq, hid⟩
        rcases langLoopGo_id_shapes now i block outc allLangs rest q hq with
          ⟨l, hl, he⟩ | ⟨l, _, he⟩
        · have : lang = l := by
            have heq : implParsedId now i l = implParsedId now i lang := by
              rw [← he, hid, mkImplBase_id, implParsedId]
            exact ((implParsedId_parts heq).2).symm
          rw [this] at hnd
          exact (List.nodup_cons.mp hnd).1 hl
        · have heq : implParsedId now i lang = implPadId i l := by
            rw [← he, hid, mkImplBase_id, implParsedId]
          exact implParsedId_ne_implPadId now i i lang l heq
      · exact ih (List.nodup_cons.mp hnd).2
    · have hm : (allLangs.map (catchRecord i)).map Question.id
          = allLangs.map (fun l => implPadId i l) := by
        rw [List.map_map]
        rfl
      show ((allLangs.map (catchRecord i)).map Question.id).Nodup
      rw [hm]
      refine List.Nodup.map_on ?_ hA
      intro x _ y _ he
      exact (implPadId_parts he).2

theorem blockQuestions_ids_nodup (now : Nat) (fd : FormData)
    (outcomes : Nat → List Char → String → LangOutcome) (i : Nat) (block : List Char)
    (hnd : fd.languages.Nodup) :
    ((blockQuestions now fd outcomes i block).map Question.id).Nodup :=
  langLoopGo_ids_nodup now i block (outcomes i block) fd.languages hnd fd.languages hnd

theorem blockQuestions_id_shapes (now : Nat) (fd : FormData)
    (outcomes : Nat → List Char → String → LangOutcome) (i : Nat) (block : List Char) :
    ∀ q ∈ blockQuestions now fd outcomes i block,
      (∃ l, l ∈ fd.languages ∧ q.id = implParsedId now i l)
      ∨ (∃ l, l ∈ fd.languages ∧ q.id = implPadId i l) :=
  fun q hq =>
    langLoopGo_id_shapes now i block (outcomes i block) fd.languages fd.languages q hq

theorem enumFrom_mem_bounds {α : Type} : ∀ (k : Nat) (l : List α) (p : Nat × α),
    p ∈ enumFrom k l → k ≤ p.1 ∧ p.1 < k + l.length
  | k, [], p => by
    intro h
    rw [enumFrom] at h
    exact absurd h (List.not_mem_nil p)
  | k, a :: l, p => by
    intro h
    rw [enumFrom] at h
    rcases List.mem_cons.mp h with rfl | hm
    · simp
    · have hb := enumFrom_mem_bounds (k + 1) l p hm
      simp only [List.length_cons]
      omega

theorem nodup_flatMap_enum {α β : Type} (f : Nat × α → List β) :
    ∀ (l : List α) (k : Nat),
      (∀ p, p ∈ enumFrom k l → (f p).Nodup) →
      (∀ p, p ∈ enumFrom k l → ∀ p', p' ∈ enumFrom k l → p.1 ≠ p'.1 →
        ∀ x, x ∈ f p → ¬ x ∈ f p') →
      ((enumFrom k l).flatMap f).Nodup
  | [], k, _, _ => by
    rw [enumFrom]
    exact List.nodup_nil
  | a :: l, k, hn, hd => by
    rw [enumFrom, List.flatMap_cons, List.nodup_append]
    refine ⟨hn _ (List.mem_cons_self _ _), ?_, ?_⟩
    · exact nodup_flatMap_enum f l (k + 1)
        (fun p hp => hn p (List.mem_cons_of_mem _ hp))
        (fun p hp p' hp' => hd p (List.mem_cons_of_mem _ hp) p' (List.mem_cons_of_mem _ hp'))
    · intro x hx hx'
      rcases List.mem_flatMap.mp hx' with ⟨p', hp', hxe⟩
      have hb := enumFrom_mem_bounds (k + 1) l p' hp'
      exact hd (k, a) (List.mem_cons_self _ _) p' (List.mem_cons_of_mem _ hp')
        (by omega) x hx hxe

theorem map_flatMap' {α β γ : Type} (g : β → γ) (f : α → List β) :
    ∀ l : List α, (l.flatMap f).map g = l.flatMap (fun a => (f a).map g)
  | [] => rfl
  | a :: l => by
    simp only [List.flatMap_cons, List.map_append, map_flatMap' g f l]

theorem implPre_ids_nodup (now : Nat) (fd : FormData)
    (outcomes : Nat → List Char → String → LangOutcome) (text : String)
    (hnd : fd.languages.Nodup) :
    ((implPre now fd outcomes text).map Question.id).Nodup := by
  rw [implPre, map_flatMap']
  refine nodup_flatMap_enum _ (takenBlocks text) 0 ?_ ?_
  · intro p _
    exact blockQuestions_ids_nodup now fd outcomes p.1 p.2 hnd
  · intro p hp p' hp' hne x hx hx'
    have hb := enumFrom_mem_bounds 0 (takenBlocks text) p hp
    have hb' := enumFrom_mem_bounds 0 (takenBlocks text) p' hp'
    have hc5 : (takenBlocks text).length ≤ 5 := parsedBlockCount_le_five text
    have h5 : p.1 ≤ 5 := by omega
    have h5' : p'.1 ≤ 5 := by omega
    rcases List.mem_map.mp hx with ⟨q, hq, rfl⟩
    rcases List.mem_map.mp hx' with ⟨q', hq', hid⟩
    rcases blockQuestions_id_shapes now fd outcomes p.1 p.2 q hq with
      ⟨l, _, he⟩ | ⟨l, _, he⟩ <;>
      rcases blockQuestions_id_shapes now fd outcomes p'.1 p'.2 q' hq' with
        ⟨l', _, he'⟩ | ⟨l', _, he'⟩
    · have heq : implParsedId now p.1 l = implParsedId now p'.1 l' := by
        rw [← he, ← he', hid]
      exact hne (repr_inj_le5 h5 h5' (implParsedId_parts heq).1)
    · have heq : implParsedId now p.1 l = implPadId p'.1 l' := by
        rw [← he, ← he', hid]
      exact implParsedId_ne_implPadId now p.1 p'.1 l l' heq
    · have heq : implParsedId now p'.1 l' = implPadId p.1 l := by
        rw [← he, ← he', hid]
      exact implParsedId_ne_implPadId now p'.1 p.1 l' l heq
    · have heq : implPadId p.1 l = implPadId p'.1 l' := by
        rw [← he, ← he', hid]
      exact hne (repr_inj_le5 h5 h5' (implPadId_parts heq).1)

theorem implPre_id_shapes (now : Nat) (fd : FormData)
    (outcomes : Nat → List Char → String → LangOutcome) (text : String) :
    ∀ s ∈ (implPre now fd outcomes text).map Question.id,
      ∃ i, i < parsedBlockCount text ∧
        ((∃ l, l ∈ fd.languages ∧ s = implParsedId now i l)
         ∨ (∃ l, l ∈ fd.languages ∧ s = implPadId i l)) := by
  intro s hs
  rw [implPre, map_flatMap'] at hs
  rcases List.mem_flatMap.mp hs with ⟨p, hp, hsx⟩
  have hb := enumFrom_mem_bounds 0 (takenBlocks text) p hp
  rcases List.mem_map.mp hsx with ⟨q, hq, rfl⟩
  refine ⟨p.1, ?_, blockQuestions_id_shapes now fd outcomes p.1 p.2 q hq⟩
  rw [parsedBlockCount]
  omega

/-- C9: with pairwise-distinct requested languages, the identifier field is
unique across the whole batch of the implementation parser, for every
behaviour of the regex engine in the per-language extraction: parsed-block ids
carry the (timestamp, block index, language) triple; parse-error fallback ids
(from the catch branch) and padding ids both have the shape
`question-fallback-<index>-<language>` but cannot collide, because every
padding question index exceeds every block index (each processed block
contributes at least one record per language); and the fallback shapes differ
from the parsed shape right after the shared "question-" prefix (a digit of
the timestamp against the letter of "fallback-"). -/
theorem batch_ids_unique (now : Nat) (fd : FormData)
    (outcomes : Nat → List Char → String → LangOutcome) (text : String)
    (hnd : fd.languages.Nodup) :
    ((parseQuestionsWithImplementations now fd outcomes text).map Question.id).Nodup := by
  rcases Nat.eq_zero_or_pos fd.languages.length with hN | hN
  · have hlen : (parseQuestionsWithImplementations now fd outcomes text).length = 0 := by
      rw [parseImpl_length, hN, Nat.mul_zero]
    rw [List.length_eq_zero] at hlen
    rw [hlen]
    exact List.nodup_nil
  · rw [parseQuestionsWithImplementations, padLoop_eq]
    have hsub :
        ((List.take (5 * fd.languages.length)
            (implPre now fd outcomes text ++
              (List.range (5 * fd.languages.length - (implPre now fd outcomes text).length)).map
                (fun t => implPad fd.languages ((implPre now fd outcomes text).length + t)))).map
          Question.id).Sublist
          ((implPre now fd outcomes text ++
              (List.range (5 * fd.languages.length - (implPre now fd outcomes text).length)).map
                (fun t => implPad fd.languages ((implPre now fd outcomes text).length + t))).map
            Question.id) :=
      List.Sublist.map _ (List.take_sublist _ _)
    refine List.Nodup.sublist hsub ?_
    rw [List.map_append]
    rw [List.nodup_append]
    have hge := implPre_length_ge now fd outcomes text
    refine ⟨implPre_ids_nodup now fd outcomes text hnd, ?_, ?_⟩
    · rw [List.map_map]
      refine List.Nodup.map_on ?_ (List.nodup_range _)
      intro t ht t' ht' he
      rw [List.mem_range] at ht ht'
      have hlt : (implPre now fd outcomes text).length + t < 5 * fd.languages.length := by
        omega
      have hlt' : (implPre now fd outcomes text).length + t' < 5 * fd.languages.length := by
        omega
      have hq5 : ((implPre now fd outcomes text).length + t) / fd.languages.length + 1 ≤ 5 :=
        Nat.succ_le_of_lt ((Nat.div_lt_iff_lt_mul hN).mpr hlt)
      have hq5' : ((implPre now fd outcomes text).length + t') / fd.languages.length + 1 ≤ 5 :=
        Nat.succ_le_of_lt ((Nat.div_lt_iff_lt_mul hN).mpr hlt')
      have hparts := implPadId_parts (he : implPadId _ _ = implPadId _ _)
      have hqi := Nat.succ_injective (repr_inj_le5 hq5 hq5' hparts.1)
      have hli := getD_inj_of_nodup hnd
        (Nat.mod_lt _ hN) (Nat.mod_lt _ hN) hparts.2
      have hs1 := Nat.div_add_mod ((implPre now fd outcomes text).length + t)
        fd.languages.length
      have hs2 := Nat.div_add_mod ((implPre now fd outcomes text).length + t')
        fd.languages.length
      have : (implPre now fd outcomes text).length + t
          = (implPre now fd outcomes text).length + t' := by
        rw [← hs1, ← hs2, hqi, hli]
      omega
    · intro x hx hx'
      rcases implPre_id_shapes now fd outcomes text x hx with ⟨i, hib, hsh⟩
      rw [List.map_map] at hx'
      rcases List.mem_map.mp hx' with ⟨t, ht, hxid⟩
      rw [List.mem_range] at ht
      have hlt : (implPre now fd outcomes text).length + t < 5 * fd.languages.length := by
        omega
      have hq5 : ((implPre now fd outcomes text).length + t) / fd.languages.length + 1 ≤ 5 :=
        Nat.succ_le_of_lt ((Nat.div_lt_iff_lt_mul hN).mpr hlt)
      have hqlow : parsedBlockCount text
          ≤ ((implPre now fd outcomes text).length + t) / fd.languages.length := by
        have h1 : parsedBlockCount text * fd.languages.length
            ≤ (implPre now fd outcomes text).length + t := by omega
        have h2 : parsedBlockCount text * fd.languages.length / fd.languages.length
            ≤ ((implPre now fd outcomes text).length + t) / fd.languages.length :=
          Nat.div_le_div_right h1
        rw [Nat.mul_div_cancel _ hN] at h2
        exact h2
      have hc5 : parsedBlockCount text ≤ 5 := parsedBlockCount_le_five text
      rcases hsh with ⟨l, _, he⟩ | ⟨l, _, he⟩
      · exact implParsedId_ne_implPadId now i
          (((implPre now fd outcomes text).length + t) / fd.languages.length + 1) l _
          (by rw [← he, ← hxid]; rfl)
      · have heq : implPadId i l
            = implPadId (((implPre now fd outcomes text).length + t) / fd.languages.length + 1)
                (fd.languages.getD
                  (((implPre now fd outcomes text).length + t) % fd.languages.length) "") := by
          rw [← he, ← hxid]
          rfl
        have := repr_inj_le5 (by omega) hq5 (implPadId_parts heq).1
        omega

theorem batch_ids_unique_witness :
    ((parseQuestionsWithImplementations 9
      { positionName := "p", languages := ["python", "java"], problem := "", hint := "",
        type := QType.complete_code, difficultyLevel := Difficulty.easy, topic := "t" }
      (fun _ _ lang => if lang = "java" then LangOutcome.raise else LangOutcome.ok "x")
      ("QUESTION 1: x")).map Question.id).Nodup :=
  batch_ids_unique 9
    { positionName := "p", languages := ["python", "java"], problem := "", hint := "",
      type := QType.complete_code, difficultyLevel := Difficulty.easy, topic := "t" }
    (fun _ _ lang => if lang = "java" then LangOutcome.raise else LangOutcome.ok "x")
    ("QUESTION 1: x") (by decide)
